import Mathlib

/-!
Shallow embedding of the support-generation pipeline of the
gscan-metaseq2seq repository (src/scripts/generate_data.py and
src/gscan_metaseq2seq/gscan/vocabulary.py), together with proofs of the
specified properties.  Machine integers of the source are modelled as
Nat (all quantities involved are non-negative array indices, sizes and
grid coordinates), Python dicts as association lists or total functions
with an explicit default, numpy randomness as an explicit oracle
parameter, and Python generators as fuel-driven state machines whose
fuel provably exceeds the number of loop iterations.
-/

namespace GScanMetaSeq2Seq

/-- Grid position with a row and a column, as used by the gSCAN situation
representations (the dicts with keys "row" and "column"). -/
structure Position where
  row : Nat
  column : Nat
deriving DecidableEq, Repr

/-- Attributes of one world object: the "size", "color" and "shape" fields
of the "object" sub-dicts of a situation representation. -/
structure WorldObject where
  size : Nat
  color : String
  shape : String
deriving DecidableEq, Repr

/-- One placed object of a situation: its attributes plus its grid position
(the elements of situation.placed_objects as well as situation.target_object). -/
structure PositionedObject where
  object : WorldObject
  position : Position
deriving DecidableEq, Repr

/-- A gSCAN world state, following the repository data model (the Situation
class lives in gscan_metaseq2seq/gscan/world.py, outside src/; the field set
here follows the fields generate_data.py reads: grid_size, agent_pos,
agent_direction (an int in 0..3 via DIR_TO_INT), target_object and
placed_objects, the latter iterated in insertion order). -/
structure Situation where
  gridSize : Nat
  agentPos : Position
  agentDirection : Nat
  targetObject : PositionedObject
  placedObjects : List PositionedObject
deriving DecidableEq, Repr

/-- One corpus example record, following the input file format of
generate_data.py: comma-joined command and target_commands strings plus
the situation. -/
structure Example where
  command : String
  targetCommands : String
  situation : Situation
deriving DecidableEq, Repr

instance : Inhabited Example :=
  ⟨{ command := "", targetCommands := "",
     situation := { gridSize := 0, agentPos := ⟨0, 0⟩, agentDirection := 0,
                    targetObject := ⟨⟨0, "", ""⟩, ⟨0, 0⟩⟩, placedObjects := [] } }⟩

/-- Embedding of parse_command_repr (generate_data.py:42-43):
split a comma-joined command string. -/
def parse_command_repr (commandRepr : String) : List String :=
  commandRepr.splitOn ","

/-! ## Prohibition rules (generate_data.py:126-181) -/

/-- Embedding of is_prohibited_action_adverb_combo (generate_data.py:126-131). -/
def is_prohibited_action_adverb_combo (actionWords adverbWords : List String) :
    Option String :=
  if actionWords.contains "pull" && adverbWords.contains "while spinning" then some "H"
  else none

/-- Embedding of is_prohibited_description (generate_data.py:134-181): the
five split rules B, C, D, E, F are evaluated in order and the first one that
matches (and is not waived by allow_demonstration_splits) is returned.  The
Python default argument None is normalised to the empty list by the caller
passing []. -/
def is_prohibited_description (agentPos : Position) (targetObject : PositionedObject)
    (descriptionWords : List String) (allowDemonstrationSplits : List String) :
    Option String :=
  if descriptionWords.contains "yellow" && descriptionWords.contains "square"
      && !(allowDemonstrationSplits.contains "B") then some "B"
  else if targetObject.object.color == "red" && targetObject.object.shape == "square"
      && !(allowDemonstrationSplits.contains "C") then some "C"
  else if decide (agentPos.row < targetObject.position.row)
      && decide (agentPos.column > targetObject.position.column)
      && !(allowDemonstrationSplits.contains "D") then some "D"
  else if descriptionWords.contains "small" && targetObject.object.size == 2
      && targetObject.object.shape == "circle"
      && !(allowDemonstrationSplits.contains "E") then some "E"
  else if descriptionWords.contains "push" && targetObject.object.size == 3
      && targetObject.object.shape == "square"
      && !(allowDemonstrationSplits.contains "F") then some "F"
  else none

/-- Rule B of the spec: "yellow" and "square" both among the description words. -/
def prohibitionRuleB (descriptionWords : List String) : Bool :=
  descriptionWords.contains "yellow" && descriptionWords.contains "square"

/-- Rule C of the spec: target color "red" and target shape "square". -/
def prohibitionRuleC (targetObject : PositionedObject) : Bool :=
  targetObject.object.color == "red" && targetObject.object.shape == "square"

/-- Rule D of the spec: target strictly southwest of the agent
(agent row < target row and agent column > target column). -/
def prohibitionRuleD (agentPos : Position) (targetObject : PositionedObject) : Bool :=
  decide (agentPos.row < targetObject.position.row)
    && decide (agentPos.column > targetObject.position.column)

/-- Rule E of the spec: "small" among the description words, target size 2,
target shape "circle". -/
def prohibitionRuleE (targetObject : PositionedObject)
    (descriptionWords : List String) : Bool :=
  descriptionWords.contains "small" && targetObject.object.size == 2
    && targetObject.object.shape == "circle"

/-- Rule F of the spec: "push" among the description words, target size 3,
target shape "square". -/
def prohibitionRuleF (targetObject : PositionedObject)
    (descriptionWords : List String) : Bool :=
  descriptionWords.contains "push" && targetObject.object.size == 3
    && targetObject.object.shape == "square"

/-- The specification-side reading of the prohibition check with an empty
waiver set: the rules paired with their letters in the fixed order B, C, D,
E, F; the first matching letter is returned, none when no rule matches. -/
def firstProhibitedRuleLetter (agentPos : Position) (targetObject : PositionedObject)
    (descriptionWords : List String) : Option String :=
  (([("B", prohibitionRuleB descriptionWords),
     ("C", prohibitionRuleC targetObject),
     ("D", prohibitionRuleD agentPos targetObject),
     ("E", prohibitionRuleE targetObject descriptionWords),
     ("F", prohibitionRuleF targetObject descriptionWords)].find?
      (fun p => p.2)).map (fun p => p.1))

/-! ## Batching (generate_data.py:1719-1729) -/

/-- Embedding of batched (generate_data.py:1719-1729): repeatedly slice the
next n elements off the stream and yield each non-empty chunk.  For n = 0
the source raises ValueError before yielding anything; that case is
modelled as the empty list and is never exercised (main always calls
batched(iterable, 10000)). -/
def batched (l : List α) (n : Nat) : List (List α) :=
  match l, n with
  | _, 0 => []
  | [], _ + 1 => []
  | x :: xs, m + 1 => (x :: xs).take (m + 1) :: batched ((x :: xs).drop (m + 1)) (m + 1)
termination_by l.length
decreasing_by simp [List.length_drop]; omega

/-! ## Vocabulary construction (vocabulary.py:45-108) -/

/-- A constructed Vocabulary (vocabulary.py): the six surface-word to
canonical-meaning bindings, each modelled as an association list whose keys
are unique (a Python dict). -/
structure Vocabulary where
  intransitiveVerbs : List (String × String)
  transitiveVerbs : List (String × String)
  adverbs : List (String × String)
  nouns : List (String × String)
  colorAdjectives : List (String × String)
  sizeAdjectives : List (String × String)
deriving DecidableEq, Repr

/-- The all_words list of Vocabulary.__init__ (vocabulary.py:54-61): the
concatenation of the key lists of the six category bindings. -/
def vocabularyAllWords (iv tv adv n c s : List (String × String)) : List String :=
  iv.map Prod.fst ++ tv.map Prod.fst ++ adv.map Prod.fst
    ++ n.map Prod.fst ++ c.map Prod.fst ++ s.map Prod.fst

/-- Embedding of Vocabulary.__init__ (vocabulary.py:45-71): construction
asserts len(all_words) == len(set(all_words)); a failing assert raises, which
is modelled as none. -/
def vocabularyInit (iv tv adv n c s : List (String × String)) : Option Vocabulary :=
  if (vocabularyAllWords iv tv adv n c s).Nodup then
    some ⟨iv, tv, adv, n, c, s⟩
  else
    none

/-- Embedding of Vocabulary.get_intransitive_verbs (vocabulary.py:92-93):
a copy of the key list. -/
def Vocabulary.getIntransitiveVerbs (v : Vocabulary) : List String :=
  v.intransitiveVerbs.map Prod.fst

/-- Embedding of Vocabulary.get_transitive_verbs (vocabulary.py:95-96). -/
def Vocabulary.getTransitiveVerbs (v : Vocabulary) : List String :=
  v.transitiveVerbs.map Prod.fst

/-- Embedding of Vocabulary.get_adverbs (vocabulary.py:98-99). -/
def Vocabulary.getAdverbs (v : Vocabulary) : List String :=
  v.adverbs.map Prod.fst

/-- Embedding of Vocabulary.get_nouns (vocabulary.py:101-102). -/
def Vocabulary.getNouns (v : Vocabulary) : List String :=
  v.nouns.map Prod.fst

/-- Embedding of Vocabulary.get_color_adjectives (vocabulary.py:104-105). -/
def Vocabulary.getColorAdjectives (v : Vocabulary) : List String :=
  v.colorAdjectives.map Prod.fst

/-- Embedding of Vocabulary.get_size_adjectives (vocabulary.py:107-108). -/
def Vocabulary.getSizeAdjectives (v : Vocabulary) : List String :=
  v.sizeAdjectives.map Prod.fst

/-- Some surface word occurs in more than one of the six category bindings:
the specification-side collision condition for construction failure. -/
def vocabularyWordCollision (iv tv adv n c s : List (String × String)) : Prop :=
  ∃ w : String, ∃ i j : Fin 6, i < j
    ∧ w ∈ ([iv, tv, adv, n, c, s].map (List.map Prod.fst)).get i
    ∧ w ∈ ([iv, tv, adv, n, c, s].map (List.map Prod.fst)).get j

/-! ## Command index and binary search (generate_data.py:45-52 and 897-902) -/

/-- The bucket key of an example in sort_indices_by_command
(generate_data.py:50): the command string split on commas and re-joined with
spaces. -/
def commandSpaceKey (e : Example) : String :=
  String.intercalate " " (e.command.splitOn ",")

/-- Python enumerate over a list, producing (index, element) pairs starting
at the given offset. -/
def pyEnumFrom (k : Nat) : List α → List (Nat × α)
  | [] => []
  | x :: xs => (k, x) :: pyEnumFrom (k + 1) xs

/-- Python enumerate starting at 0. -/
def pyEnum (l : List α) : List (Nat × α) := pyEnumFrom 0 l

/-- Embedding of sort_indices_by_command (generate_data.py:45-52): the
defaultdict(list) is modelled as a total map from key to bucket with default
[]; examples are enumerated front to back and each index is appended to the
bucket of its command key. -/
def sort_indices_by_command (examples : List Example) : String → List Nat :=
  (pyEnum examples).foldl
    (fun m p => fun key => if key = commandSpaceKey p.2 then m key ++ [p.1] else m key)
    (fun _ => [])

/-- The bisect_left loop (Python standard library, called at
generate_data.py:899) on a list of naturals: fuel-driven binary search; the
initial fuel hi - lo bounds the iteration count, because every iteration
strictly shrinks the interval. -/
def bisectLeftAux (a : List Nat) (x : Nat) : Nat → Nat → Nat → Nat
  | 0, lo, _ => lo
  | fuel + 1, lo, hi =>
    if lo < hi then
      let mid := (lo + hi) / 2
      if a.getD mid 0 < x then bisectLeftAux a x fuel (mid + 1) hi
      else bisectLeftAux a x fuel lo mid
    else lo

/-- bisect_left(a, x): leftmost insertion point of x in a. -/
def bisectLeft (a : List Nat) (x : Nat) : Nat :=
  bisectLeftAux a x a.length 0 a.length

/-- Embedding of find_in_sorted_list (generate_data.py:897-902): binary
search for the leftmost value exactly equal to x. -/
def find_in_sorted_list (a : List Nat) (x : Nat) : Bool :=
  let i := bisectLeft a x
  i != a.length && a.getD i 0 == x

/-! ## Retrieval strategies (generate_data.py:851-996) -/

/-- Result triple of a retrieval strategy: support instructions, support
targets and support layouts, in the order the source appends them. -/
structure StrategyResult where
  supportInstructions : List (List String)
  supportTargets : List (List String)
  supportLayouts : List Situation
deriving DecidableEq, Repr

/-- Embedding of find_supports_with_any_target_object_in_same_position
(generate_data.py:952-996).  The payload index dicts are modelled as total
maps with default [] (defaultdict); np.random.choice(possible_demos,
size=min(len(possible_demos), num_demos), replace=True) is modelled by an
explicit draw oracle giving, for each of the min(len, num_demos) slots, an
index into possible_demos (sampling with replacement). -/
def find_supports_with_any_target_object_in_same_position
    (command : List String) (situation : Situation)
    (indexByTargetXY : Nat → Nat → List Nat)
    (indexByCommand : String → List Nat)
    (trainExamples : List Example)
    (numDemos : Nat) (draws : Nat → Nat) : StrategyResult :=
  let targetObject := situation.targetObject
  let xPos := targetObject.position.column
  let yPos := targetObject.position.row
  let commandKey := String.intercalate " " command
  let possibleDemos := indexByTargetXY xPos yPos
  let possibleDemos := possibleDemos.filter
    (fun p => !(find_in_sorted_list (indexByCommand commandKey) p))
  let relevantDemos := (List.range (min possibleDemos.length numDemos)).map
    (fun j => possibleDemos.getD (draws j) 0)
  { supportInstructions := relevantDemos.map
      (fun i => parse_command_repr ((trainExamples.getD i default).command)),
    supportTargets := relevantDemos.map
      (fun i => parse_command_repr ((trainExamples.getD i default).targetCommands)),
    supportLayouts := relevantDemos.map
      (fun i => (trainExamples.getD i default).situation) }

/-- The per-character space join " ".join(s) that Python performs when s is
a string rather than a token list: every character of s becomes its own
token. -/
def spaceJoinChars (s : String) : String :=
  String.intercalate " " (s.toList.map (fun ch => String.mk [ch]))

/-- Embedding of generate_random_instructions_find_support_in_any_layout
(generate_data.py:851-894).  The command index dict is modelled as an
association list (so that its key set is available);
np.random.choice(keys - {command_key}, size=num_demos, replace=False) is
modelled by the explicit list of drawn keys; np.random.choice(bucket) by a
per-key pick oracle.  Note that the loop body computes
key = " ".join(support_instruction_command) where support_instruction_command
is itself one of the drawn key strings, so the characters of the key are
joined with spaces before the lookup. -/
def generate_random_instructions_find_support_in_any_layout
    (indexByCommand : List (String × List Nat))
    (trainExamples : List Example)
    (drawnKeys : List String) (pick : String → Nat) :
    List String × List (List String) × List Situation :=
  let step := fun (acc : List String × List (List String) × List Situation)
      (supportInstructionCommand : String) =>
    let key := spaceJoinChars supportInstructionCommand
    match indexByCommand.find? (fun p => p.1 = key) with
    | none => acc
    | some p =>
      let relevantExampleIdx := p.2.getD (pick supportInstructionCommand) 0
      let relevantExample := trainExamples.getD relevantExampleIdx default
      (acc.1 ++ [supportInstructionCommand],
       acc.2.1 ++ [parse_command_repr relevantExample.targetCommands],
       acc.2.2 ++ [relevantExample.situation])
  drawnKeys.foldl step ([], [], [])

/-! ## Description word options (generate_data.py:184-235) -/

/-- Final content of object_types_max_sizes[shape][color]
(generate_data.py:191-201): the defaultdict starts at 0 and each placed
object raises the entry of its own (shape, color) group to its size, so the
final entry is the maximum size over the group (0 for an empty group). -/
def objectTypesMaxSize (placed : List PositionedObject) (shape color : String) : Nat :=
  placed.foldl
    (fun acc o =>
      if o.object.shape = shape ∧ o.object.color = color then max acc o.object.size
      else acc) 0

/-- Final content of object_types_min_sizes[shape][color]
(generate_data.py:192-209): starts at 10 and takes the minimum over the
(shape, color) group. -/
def objectTypesMinSize (placed : List PositionedObject) (shape color : String) : Nat :=
  placed.foldl
    (fun acc o =>
      if o.object.shape = shape ∧ o.object.color = color then min acc o.object.size
      else acc) 10

/-- The size-tag prefix of one non-target option (generate_data.py:213-227):
["big"] when the object attains the maximum size of its (shape, color)
group, else ["small"] when it attains the minimum, else []. -/
def sizeTagWords (placed : List PositionedObject) (o : PositionedObject) : List String :=
  if o.object.size = objectTypesMaxSize placed o.object.shape o.object.color then ["big"]
  else if o.object.size = objectTypesMinSize placed o.object.shape o.object.color then
    ["small"]
  else []

/-- A description option: candidate descriptor words paired with the
candidate target object. -/
abbrev DescOption := List String × PositionedObject

/-- Embedding of generate_description_words_options (generate_data.py:184-235):
the true target with the query description words first, then one option per
other placed object (every placed object whose position differs from the
target position, in placement order) with derived size/color/shape words. -/
def generate_description_words_options (situation : Situation)
    (descriptionWords : List String) : List DescOption :=
  (descriptionWords, situation.targetObject) ::
    ((situation.placedObjects.filter
        (fun o => o.position ≠ situation.targetObject.position)).map
      (fun o =>
        (sizeTagWords situation.placedObjects o ++ [o.object.color, o.object.shape], o)))

/-! ## Round-robin description sorting (generate_data.py:238-327) -/

/-- Does a description-word list match the query on the given sub-vocabulary
(generate_data.py:246-279): restrict the option words to the sub-vocabulary
and test whether any of them occurs among the query description words. -/
def matchWords (dw query voc : List String) : Bool :=
  (dw.filter (fun w => voc.contains w)).any (fun w => query.contains w)

/-- The three bucket modes of sort_description_words_by_query_match, in
their cycling order color, object, size. -/
inductive SortMode where
  | color
  | object
  | size
deriving DecidableEq, Repr

/-- The next_mode table (generate_data.py:292): color to object to size back
to color. -/
def SortMode.next : SortMode → SortMode
  | .color => .object
  | .object => .size
  | .size => .color

/-- Whether option i of the option list matches the query under the given
mode (the matches_color_word / matches_object_word / matches_size_word
arrays of generate_data.py:259-279; out-of-range indices never match). -/
def optionMatches (options : List DescOption) (query colors nouns : List String) :
    SortMode → Nat → Bool :=
  fun m i =>
    match options.get? i with
    | none => false
    | some dw =>
      match m with
      | .color => matchWords dw.1 query colors
      | .object => matchWords dw.1 query nouns
      | .size => matchWords dw.1 query ["big", "small"]

/-- Python sorted(option_indices, key=lambda i: matches[i], reverse=True)
(generate_data.py:263-279) on a Bool key: the sort is stable, so the result
is all matching indices in original order followed by all non-matching
indices in original order. -/
def stableSortByMatchDesc (n : Nat) (f : Nat → Bool) : List Nat :=
  (List.range n).filter f ++ (List.range n).filter (fun i => !(f i))

/-- The cursor state of the while loop of
sort_description_words_by_query_match (generate_data.py:281-327): one cursor
per mode (indices_indexes), the current mode, and the set of not yet emitted
option indices (option_indices_set, a set of naturals modelled as a
duplicate-free list). -/
structure SortLoopState where
  cColor : Nat
  cObject : Nat
  cSize : Nat
  mode : SortMode
  rem : List Nat
deriving DecidableEq, Repr

/-- The cursor of the given mode. -/
def SortLoopState.cursor (st : SortLoopState) : SortMode → Nat
  | .color => st.cColor
  | .object => st.cObject
  | .size => st.cSize

/-- Increment the cursor of the current mode (indices_indexes[mode] += 1). -/
def SortLoopState.bump (st : SortLoopState) : SortLoopState :=
  match st.mode with
  | .color => { st with cColor := st.cColor + 1 }
  | .object => { st with cObject := st.cObject + 1 }
  | .size => { st with cSize := st.cSize + 1 }

/-- The while loop of sort_description_words_by_query_match
(generate_data.py:295-327), parametrised by the three sorted index arrays A
and the per-mode match predicate M, and driven by fuel; the fuel passed by
sortDescriptionIndices provably exceeds the number of iterations.  While
any cursor is below its array length: if the current mode's cursor is
exhausted, advance the mode; else look at the candidate index under the
cursor; skip it (cursor + 1) when it was already taken or does not match
the mode; otherwise yield it, remove it from the remaining set, advance the
cursor and the mode. -/
def sortLoopRun (A : SortMode → List Nat) (M : SortMode → Nat → Bool) :
    Nat → SortLoopState → List Nat
  | 0, _ => []
  | fuel + 1, st =>
    if st.cColor < (A .color).length ∨ st.cObject < (A .object).length
        ∨ st.cSize < (A .size).length then
      if (A st.mode).length ≤ st.cursor st.mode then
        sortLoopRun A M fuel { st with mode := st.mode.next }
      else
        let i := (A st.mode).getD (st.cursor st.mode) 0
        if !(st.rem.contains i) || !(M st.mode i) then
          sortLoopRun A M fuel st.bump
        else
          i :: sortLoopRun A M fuel
            { st.bump with rem := st.rem.erase i, mode := st.mode.next }
    else []

/-- Fuel bound for the sort loop: each iteration either increments one of
the three cursors (at most the sum of the array lengths times) or hops from
an exhausted mode to the next (at most two hops in a row), so three times
the total length plus three iterations always suffice. -/
def sortLoopFuel (A : SortMode → List Nat) : Nat :=
  3 * ((A .color).length + (A .object).length + (A .size).length) + 3

/-- The index sequence emitted by sort_description_words_by_query_match
(generate_data.py:238-327): run the cursor loop on the three stably sorted
index arrays, starting at cursors 0, mode color, all option indices
remaining. -/
def sortDescriptionIndices (options : List DescOption)
    (query colors nouns : List String) : List Nat :=
  let A := fun m => stableSortByMatchDesc options.length
    (optionMatches options query colors nouns m)
  sortLoopRun A (optionMatches options query colors nouns) (sortLoopFuel A)
    ⟨0, 0, 0, .color, List.range options.length⟩

/-- Embedding of sort_description_words_by_query_match
(generate_data.py:238-327): the generator yields
description_words_options[i] for each emitted index i. -/
def sort_description_words_by_query_match (options : List DescOption)
    (query colors nouns : List String) : List DescOption :=
  (sortDescriptionIndices options query colors nouns).filterMap options.get?

/-! ## Specification-side round-robin machine (spec section 4.3 step 3 and
section 9): an explicit cursor-and-mode state machine over three
pre-filtered buckets, cycling color, object, size, skipping items already
emitted, keeping corpus order within each bucket. -/

/-- State of the specification round-robin machine: the remaining part of
each bucket (bucket contents are option indices matching the bucket's
criterion, in corpus order), the current mode, and the not yet emitted
indices. -/
structure RoundRobinState where
  bColor : List Nat
  bObject : List Nat
  bSize : List Nat
  mode : SortMode
  rem : List Nat
deriving DecidableEq, Repr

/-- The remaining bucket of the given mode. -/
def RoundRobinState.bucket (st : RoundRobinState) : SortMode → List Nat
  | .color => st.bColor
  | .object => st.bObject
  | .size => st.bSize

/-- Replace the bucket of the given mode. -/
def RoundRobinState.setBucket (st : RoundRobinState) : SortMode → List Nat → RoundRobinState
  | .color, b => { st with bColor := b }
  | .object, b => { st with bObject := b }
  | .size, b => { st with bSize := b }

/-- The specification round-robin machine: while some bucket is non-empty,
look at the current mode's bucket; if it is exhausted, advance the mode; if
its head was already emitted, drop the head and stay in the mode; otherwise
emit the head, drop it, mark it emitted and advance the mode. -/
def roundRobinRun : Nat → RoundRobinState → List Nat
  | 0, _ => []
  | fuel + 1, st =>
    if st.bColor = [] ∧ st.bObject = [] ∧ st.bSize = [] then []
    else
      match st.bucket st.mode with
      | [] => roundRobinRun fuel { st with mode := st.mode.next }
      | i :: rest =>
        if st.rem.contains i then
          i :: roundRobinRun fuel
            ({ st.setBucket st.mode rest with rem := st.rem.erase i, mode := st.mode.next })
        else roundRobinRun fuel (st.setBucket st.mode rest)

/-- The index sequence of the specification round-robin ordering: buckets
are the option indices matching each criterion, in corpus order. -/
def roundRobinSpecIndices (options : List DescOption)
    (query colors nouns : List String) : List Nat :=
  let M := optionMatches options query colors nouns
  let n := options.length
  roundRobinRun (3 * (3 * n) + 3)
    ⟨(List.range n).filter (M .color), (List.range n).filter (M .object),
     (List.range n).filter (M .size), .color, List.range n⟩

/-- The initial state of the specification machine: the three corpus-order
match buckets, mode color, all indices remaining. -/
def rrInitState (options : List DescOption)
    (query colors nouns : List String) : RoundRobinState :=
  ⟨(List.range options.length).filter (optionMatches options query colors nouns .color),
   (List.range options.length).filter (optionMatches options query colors nouns .object),
   (List.range options.length).filter (optionMatches options query colors nouns .size),
   .color, List.range options.length⟩

/-- The specification round-robin ordering on the option values. -/
def roundRobinSpecOrder (options : List DescOption)
    (query colors nouns : List String) : List DescOption :=
  (roundRobinSpecIndices options query colors nouns).filterMap options.get?

/-! ## Oracle instruction generation (generate_data.py:122-123, 330-362,
365-541) -/

/-- ALL_ACTION_OPTIONS (generate_data.py:122). -/
def ALL_ACTION_OPTIONS : List (List String) := [["walk", "to"], ["push"], ["pull"]]

/-- ALL_ADVERB_OPTIONS (generate_data.py:123). -/
def ALL_ADVERB_OPTIONS : List (List String) :=
  [["while spinning"], ["while zigzagging"], ["hesitantly"], []]

/-- itertools.product of two lists, in Python iteration order. -/
def pyProduct (l1 : List α) (l2 : List β) : List (α × β) :=
  l1.flatMap (fun a => l2.map (fun b => (a, b)))

/-- Embedding of generate_limited_adverb_verb_combos
(generate_data.py:337-362): over the verb-adverb product, keep a pair when
its adverb phrase already appears in the instruction (or both are absent) or
its verb phrase already appears in the instruction. -/
def generate_limited_adverb_verb_combos (possibleVerbs possibleAdverbs : List (List String))
    (verbWordsInInstruction adverbWordsInInstruction : List String) :
    List (List String × List String) :=
  (pyProduct possibleVerbs possibleAdverbs).filter
    (fun p =>
      let verbIsIn := p.1.all (fun w => verbWordsInInstruction.contains w)
      let adverbIsIn := (!p.2.isEmpty && p.2.all (fun w => adverbWordsInInstruction.contains w))
        || (adverbWordsInInstruction.isEmpty && p.2.isEmpty)
      adverbIsIn || verbIsIn)

/-- vocabulary_verbs (generate_data.py:391). -/
def oracleVocabularyVerbs : List String := ["walk", "to", "push", "pull"]

/-- vocabulary_adverbs (generate_data.py:392-397). -/
def oracleVocabularyAdverbs : List String :=
  ["while spinning", "while zigzagging", "hesitantly", "cautiously"]

/-- vocabulary_descriptors (generate_data.py:390). -/
def oracleVocabularyDescriptors (colors nouns : List String) : List String :=
  colors ++ nouns ++ ["big", "small"]

/-- description_words of the query (generate_data.py:399-407): the query
words that are descriptors, in query order. -/
def oracleQueryDescriptionWords (query colors nouns : List String) : List String :=
  query.filter (fun w => (oracleVocabularyDescriptors colors nouns).contains w)

/-- adverb_verb_combos (generate_data.py:386-388 and 415-421): the full
product of action options and real adverb options ("cautiously" is offered
only when it occurs in the query), or the limited combos when
limit_verb_adverb is set. -/
def oracleAdverbVerbCombos (query : List String) (limitVerbAdverb : Bool) :
    List (List String × List String) :=
  let actionWords := query.filter (fun w => oracleVocabularyVerbs.contains w)
  let adverbWords := query.filter (fun w => oracleVocabularyAdverbs.contains w)
  let realAdverbOptions :=
    if query.contains "cautiously" then ALL_ADVERB_OPTIONS ++ [["cautiously"]]
    else ALL_ADVERB_OPTIONS
  if limitVerbAdverb then
    generate_limited_adverb_verb_combos ALL_ACTION_OPTIONS realAdverbOptions
      actionWords adverbWords
  else pyProduct ALL_ACTION_OPTIONS realAdverbOptions

/-- sorted_other_description_words (generate_data.py:438-445): the non-target
options, round-robin sorted against the target's own description words
(target_description_words[0][0] is the query description-word list, since
options always start with (description_words, target)). -/
def oracleSortedOtherDescriptionWords (query : List String) (situation : Situation)
    (colors nouns : List String) : List DescOption :=
  let descWords := oracleQueryDescriptionWords query colors nouns
  sort_description_words_by_query_match
    ((generate_description_words_options situation descWords).drop 1)
    descWords colors nouns

/-- filtered_sorted_other_description_words (generate_data.py:458-472): keep
only alternatives whose prohibition check under the waiver set comes back
clean, unless allow_any_example is set. -/
def oracleFilteredSortedOtherDescriptionWords (query : List String)
    (situation : Situation) (colors nouns : List String)
    (allowDemonstrationSplits : List String) (allowAnyExample : Bool) : List DescOption :=
  let sorted := oracleSortedOtherDescriptionWords query situation colors nouns
  if allowAnyExample then sorted
  else sorted.filter
    (fun d => (is_prohibited_description situation.agentPos d.2 d.1
      allowDemonstrationSplits).isNone)

/-- Python slicing l[:k] where k is Optional: take k when an int, the whole
list when None. -/
def pyTruncate (nOpts : Option Nat) (l : List α) : List α :=
  match nOpts with
  | none => l
  | some k => l.take k

/-- The final description_words_options of the oracle
(generate_data.py:423-498): the target option followed by the filtered
sorted alternatives, with the target demoted to the empty list when
alternatives remain and the target is either not to be demonstrated or
fails its own prohibition check (which the source invokes without the
waiver argument, so with an empty waiver set); finally truncated to
n_description_options.  target_description_words[0] is
(description_words, situation.target_object) by construction of the option
list, which is inlined here. -/
def oracleDescriptionOptions (query : List String) (situation : Situation)
    (colors nouns : List String) (nOpts : Option Nat) (demonstrateTarget : Bool)
    (allowDemonstrationSplits : List String) (allowAnyExample : Bool) : List DescOption :=
  let descWords := oracleQueryDescriptionWords query colors nouns
  let targetDescriptionWords :=
    (generate_description_words_options situation descWords).take 1
  let filtered := oracleFilteredSortedOtherDescriptionWords query situation colors nouns
    allowDemonstrationSplits allowAnyExample
  let targetDescriptionWords :=
    if !filtered.isEmpty then
      if !demonstrateTarget then []
      else if !allowAnyExample
          && (is_prohibited_description situation.agentPos situation.targetObject
            descWords []).isSome then []
      else targetDescriptionWords
    else targetDescriptionWords
  pyTruncate nOpts (targetDescriptionWords ++ filtered)

/-- The support_instructions list as accumulated by the main loop of
generate_relevant_instructions_gscan_oracle (generate_data.py:500-524): for
every surviving description option crossed with every verb-adverb combo, skip
combinations hit by the action-adverb prohibition (unless allow_any_example)
and any instruction exactly equal to the query, and append
(action + article + description + adverb, target). -/
def oracleSupportInstructions (query : List String) (situation : Situation)
    (colors nouns : List String) (nOpts : Option Nat) (demonstrateTarget : Bool)
    (allowDemonstrationSplits : List String) (allowAnyExample : Bool)
    (limitVerbAdverb : Bool) : List (List String × PositionedObject) :=
  let articleWords := query.filter (fun w => w = "a")
  let combos := oracleAdverbVerbCombos query limitVerbAdverb
  let descOptions := oracleDescriptionOptions query situation colors nouns nOpts
    demonstrateTarget allowDemonstrationSplits allowAnyExample
  descOptions.flatMap
    (fun dw =>
      combos.filterMap
        (fun combo =>
          if (is_prohibited_action_adverb_combo combo.1 combo.2).isSome
              && !allowAnyExample then none
          else
            let proposed := combo.1 ++ articleWords ++ dw.1 ++ combo.2
            if proposed = query then none
            else some (proposed, dw.2)))

/-- Embedding of generate_relevant_instructions_gscan_oracle
(generate_data.py:365-541).  np.random.permutation(len(support_instructions))
is modelled by the explicit index list perm (unused unless pick_random).
The source returns [] when no support could be generated and no waivers are
configured, and raises an AssertionError (so returns nothing) when supports
are empty with waivers configured; both cases come out as the empty list
here, which is also what the two downsampling branches produce on an empty
support list. -/
def generate_relevant_instructions_gscan_oracle (query : List String)
    (situation : Situation) (colors nouns : List String) (nOpts : Option Nat)
    (demonstrateTarget : Bool) (allowDemonstrationSplits : List String)
    (allowAnyExample : Bool) (numDemos : Nat) (pickRandom : Bool)
    (limitVerbAdverb : Bool) (perm : List Nat) : List (List String × PositionedObject) :=
  let supportInstructions := oracleSupportInstructions query situation colors nouns
    nOpts demonstrateTarget allowDemonstrationSplits allowAnyExample limitVerbAdverb
  if allowDemonstrationSplits.isEmpty && supportInstructions.isEmpty then []
  else if pickRandom then (perm.take numDemos).filterMap supportInstructions.get?
  else supportInstructions.take numDemos

/-! ## Situation codec (generate_data.py:553-698) -/

/-- The two world encoding schemes of parse_sparse_situation. -/
inductive WorldEncodingScheme where
  | sequence
  | all
deriving DecidableEq, Repr

/-- The agent row of the "sequence" scheme (generate_data.py:582-587):
zeros with channel 3 = 1, channel 4 = direction, channel 5 = row,
channel 6 = column; 10 channels with reascan boxes, 7 otherwise. -/
def sequenceAgentRow (s : Situation) (reascan : Bool) : List Nat :=
  if reascan then
    [0, 0, 0, 1, s.agentDirection, s.agentPos.row, s.agentPos.column, 0, 0, 0]
  else [0, 0, 0, 1, s.agentDirection, s.agentPos.row, s.agentPos.column]

/-- One object row of the "sequence" scheme (generate_data.py:589-640):
[size, color index, shape index, 0, 0, row, column], padded with three zero
slots in reascan mode, where box-shaped objects instead put their size,
color and a box flag into the three extra slots. -/
def sequenceObjectRow (c2i n2i : String → Nat) (reascan : Bool)
    (o : PositionedObject) : List Nat :=
  if reascan then
    if o.object.shape ≠ "box" then
      [o.object.size, c2i o.object.color, n2i o.object.shape, 0, 0,
       o.position.row, o.position.column, 0, 0, 0]
    else
      [0, 0, 0, 0, 0, o.position.row, o.position.column,
       o.object.size, c2i o.object.color, 1]
  else
    [o.object.size, c2i o.object.color, n2i o.object.shape, 0, 0,
     o.position.row, o.position.column]

/-- The all-zero cell the dense grid of the "all" scheme starts from
(generate_data.py:645): 8 channels with reascan boxes, 5 otherwise. -/
def denseZeroCell (reascan : Bool) : List Nat :=
  List.replicate (if reascan then 8 else 5) 0

/-- The agent cell of the "all" scheme (generate_data.py:646-650): zeros
with second-to-last channel 1 and last channel the direction. -/
def denseAgentCell (s : Situation) (reascan : Bool) : List Nat :=
  if reascan then [0, 0, 0, 0, 0, 0, 1, s.agentDirection]
  else [0, 0, 0, 1, s.agentDirection]

/-- Write the agent cell into the dense grid
(generate_data.py:650: grid[agent_row, agent_column, :] = agent_representation). -/
def denseSetAgent (g : Nat → Nat → List Nat) (s : Situation) (reascan : Bool) :
    Nat → Nat → List Nat :=
  fun r c =>
    if r = s.agentPos.row ∧ c = s.agentPos.column then denseAgentCell s reascan
    else g r c

/-- Write one placed object into the dense grid (generate_data.py:653-679):
channels 0, 1, 2 of the object's cell get size, color index and shape index
(the remaining channels of that cell are kept); in reascan mode a box-shaped
object instead writes size, color index and a flag 1 into channels 5, 6, 7. -/
def denseSetObject (c2i n2i : String → Nat) (reascan : Bool)
    (g : Nat → Nat → List Nat) (o : PositionedObject) : Nat → Nat → List Nat :=
  fun r c =>
    if r = o.position.row ∧ c = o.position.column then
      if reascan && (o.object.shape == "box") then
        (g r c).take 5 ++ [o.object.size, c2i o.object.color, 1]
      else
        [o.object.size, c2i o.object.color, n2i o.object.shape] ++ (g r c).drop 3
    else g r c

/-- The fully written dense grid of the "all" scheme
(generate_data.py:645-679): start from zeros, place the agent, then fold the
placed objects front to back. -/
def denseGrid (s : Situation) (c2i n2i : String → Nat) (reascan : Bool) :
    Nat → Nat → List Nat :=
  s.placedObjects.foldl (denseSetObject c2i n2i reascan)
    (denseSetAgent (fun _ _ => denseZeroCell reascan) s reascan)

/-- Embedding of add_positional_information_to_grid
(generate_data.py:687-698): append to every cell its own 1-based row index
(cumsum over axis 0) and 1-based column index (cumsum over axis 1), then
flatten the grid row-major into a sequence of cell vectors. -/
def add_positional_information_to_grid (gridSize : Nat)
    (g : Nat → Nat → List Nat) : List (List Nat) :=
  (List.range gridSize).flatMap
    (fun r => (List.range gridSize).map (fun c => g r c ++ [r + 1, c + 1]))

/-- Embedding of parse_sparse_situation (generate_data.py:553-684): the
"sequence" scheme emits the agent row followed by one row per placed object
in placement order; the "all" scheme fills the dense grid and flattens it
with positional channels appended. -/
def parse_sparse_situation (s : Situation) (gridSize : Nat)
    (c2i n2i : String → Nat) (scheme : WorldEncodingScheme) (reascan : Bool) :
    List (List Nat) :=
  match scheme with
  | .sequence => sequenceAgentRow s reascan :: s.placedObjects.map (sequenceObjectRow c2i n2i reascan)
  | .all => add_positional_information_to_grid gridSize (denseGrid s c2i n2i reascan)

/-- The (size, color, shape, position) tuple of a placed object, the payload
the round-trip property of the spec is stated about. -/
def objectTuple (o : PositionedObject) : Nat × String × String × Position :=
  (o.object.size, o.object.color, o.object.shape, o.position)

/-- Modelled from the spec: the decoder for the "sequence" scheme, which the
repository does not contain under src/ (spec sections 4.1 and 8 require that
decoding recover agent position, direction and the object tuples from either
scheme).  The first row is the agent ([_,_,_,1,direction,row,column]), each
further row one object ([size, color index, shape index, 0, 0, row, column]);
color and shape indices are mapped back through the inverse vocabulary maps. -/
def decodeSequence (flat : List (List Nat)) (i2c i2n : Nat → String) :
    Option Position × Nat × List (Nat × String × String × Position) :=
  match flat with
  | [] => (none, 0, [])
  | a :: objs =>
    (some ⟨a.getD 5 0, a.getD 6 0⟩, a.getD 4 0,
     objs.map (fun v =>
       (v.getD 0 0, i2c (v.getD 1 0), i2n (v.getD 2 0), ⟨v.getD 5 0, v.getD 6 0⟩)))

/-- Modelled from the spec: the decoder for the "all" scheme, which the
repository does not contain under src/ (spec sections 4.1 and 8).  Every
flattened cell carries its own 1-based row and column in its two appended
positional channels; the agent is the cell whose agent-flag channel 3 is 1
(direction in channel 4), and every cell with a non-zero shape channel 2
holds one object. -/
def decodeAll (flat : List (List Nat)) (i2c i2n : Nat → String) :
    Option Position × Nat × List (Nat × String × String × Position) :=
  let agent := flat.find? (fun v => v.getD 3 0 == 1)
  (agent.map (fun v => ⟨v.getD 5 0 - 1, v.getD 6 0 - 1⟩),
   ((agent.map (fun v => v.getD 4 0)).getD 0),
   flat.filterMap (fun v =>
     if v.getD 2 0 ≠ 0 then
       some (v.getD 0 0, i2c (v.getD 1 0), i2n (v.getD 2 0),
         ⟨v.getD 5 0 - 1, v.getD 6 0 - 1⟩)
     else none))

/-! ## Termination measures for the two round-robin machines -/

/-- Total number of array entries not yet passed by the cursors of the sort
loop. -/
def sortLoopRemaining (A : SortMode → List Nat) (st : SortLoopState) : Nat :=
  ((A .color).length - st.cColor) + ((A .object).length - st.cObject)
    + ((A .size).length - st.cSize)

/-- Number of consecutive exhausted modes the sort loop has to hop over
before it can look at a candidate again (0 when the current mode has
entries left, otherwise 1 or 2; 0 again when everything is exhausted, since
the loop then stops). -/
def sortLoopHop (A : SortMode → List Nat) (st : SortLoopState) : Nat :=
  if st.cursor st.mode < (A st.mode).length then 0
  else if st.cursor st.mode.next < (A st.mode.next).length then 1
  else if st.cursor st.mode.next.next < (A st.mode.next.next).length then 2
  else 0

/-- Termination measure of the sort loop: strictly decreases on every
iteration of the while loop. -/
def sortLoopMeasure (A : SortMode → List Nat) (st : SortLoopState) : Nat :=
  3 * sortLoopRemaining A st + sortLoopHop A st

/-- Total number of entries left in the three buckets of the specification
machine. -/
def rrRemaining (sp : RoundRobinState) : Nat :=
  sp.bColor.length + sp.bObject.length + sp.bSize.length

/-- Hop distance of the specification machine. -/
def rrHop (sp : RoundRobinState) : Nat :=
  if sp.bucket sp.mode ≠ [] then 0
  else if sp.bucket sp.mode.next ≠ [] then 1
  else if sp.bucket sp.mode.next.next ≠ [] then 2
  else 0

/-- Termination measure of the specification machine. -/
def rrMeasure (sp : RoundRobinState) : Nat :=
  3 * rrRemaining sp + rrHop sp

/-- The abstract bucket a sort-loop state denotes for a mode: the matching
entries of the part of the sorted array the cursor has not yet passed.  The
simulation argument relates the specification machine's buckets to these. -/
def sortLoopBucket (A : SortMode → List Nat) (M : SortMode → Nat → Bool)
    (st : SortLoopState) (m : SortMode) : List Nat :=
  ((A m).drop (st.cursor m)).filter (M m)

/-! ## Concrete fixtures used by witnesses and counterexamples -/

/-- The sorted gSCAN color adjectives, as produced by
DATASET_VOCABULARIES["gscan"] (generate_data.py:1733). -/
def gscanColors : List String := ["blue", "green", "red", "yellow"]

/-- The sorted gSCAN nouns. -/
def gscanNouns : List String := ["circle", "cylinder", "square"]

/-- COLOR2IDX of main (generate_data.py:1775): 1-based index into the sorted
color list. -/
def gscanColor2idx : String → Nat := fun c =>
  if c = "blue" then 1 else if c = "green" then 2 else if c = "red" then 3
  else if c = "yellow" then 4 else 0

/-- NOUN2IDX of main (generate_data.py:1776): 1-based index into the sorted
noun list. -/
def gscanNoun2idx : String → Nat := fun n =>
  if n = "circle" then 1 else if n = "cylinder" then 2 else if n = "square" then 3
  else 0

/-- Inverse of gscanColor2idx on the four colors. -/
def gscanIdx2color : Nat → String := fun i =>
  if i = 1 then "blue" else if i = 2 then "green" else if i = 3 then "red"
  else if i = 4 then "yellow" else ""

/-- Inverse of gscanNoun2idx on the three nouns. -/
def gscanIdx2noun : Nat → String := fun i =>
  if i = 1 then "circle" else if i = 2 then "cylinder" else if i = 3 then "square"
  else ""

/-- A concrete situation for the codec witness: 3 by 3 grid, agent at
(1, 2) facing north, a red circle of size 2 at (0, 1) (the target) and a
blue square of size 3 at (1, 2). -/
def codecWitnessSituation : Situation :=
  { gridSize := 3, agentPos := ⟨1, 2⟩, agentDirection := 2,
    targetObject := ⟨⟨2, "red", "circle"⟩, ⟨0, 1⟩⟩,
    placedObjects := [⟨⟨2, "red", "circle"⟩, ⟨0, 1⟩⟩, ⟨⟨3, "blue", "square"⟩, ⟨1, 2⟩⟩] }

/-- A concrete situation for the target-demotion witness: the target is a
yellow square (prohibited by rule B against the query "walk to a yellow
square"), and a blue square alternative survives the filter. -/
def demotionWitnessSituation : Situation :=
  { gridSize := 3, agentPos := ⟨0, 0⟩, agentDirection := 0,
    targetObject := ⟨⟨2, "yellow", "square"⟩, ⟨0, 1⟩⟩,
    placedObjects := [⟨⟨2, "yellow", "square"⟩, ⟨0, 1⟩⟩, ⟨⟨1, "blue", "square"⟩, ⟨1, 1⟩⟩] }

/-- The query of the target-demotion witness. -/
def demotionWitnessQuery : List String := ["walk", "to", "a", "yellow", "square"]

/-- A first train example for the strategy fixtures. -/
def strategyExample0 : Example :=
  { command := "walk,to,a,red,circle", targetCommands := "walk,walk",
    situation := codecWitnessSituation }

/-- A second train example for the strategy fixtures. -/
def strategyExample1 : Example :=
  { command := "push,a,red,circle", targetCommands := "walk,push",
    situation := codecWitnessSituation }

/-- The train example list of the strategy fixtures. -/
def strategyExamples : List Example := [strategyExample0, strategyExample1]

/-- The target-position index of the strategy fixtures: both examples have
their target at column 1, row 0. -/
def strategyIndexByTargetXY : Nat → Nat → List Nat := fun x y =>
  if x = 1 ∧ y = 0 then [0, 1] else []

/-- The command index of the strategy fixtures, as a total map. -/
def strategyIndexByCommand : String → List Nat := fun k =>
  if k = "walk to a red circle" then [0]
  else if k = "push a red circle" then [1] else []

/-- The command index of the random strategy fixture, as an association
list, keyed by space-joined command text. -/
def randomStrategyIndex : List (String × List Nat) :=
  [("walk to a red circle", [0]), ("push a red circle", [1])]

/-! ## Theorems -/

/-- First-match extraction over a five-element letter/flag list is the
corresponding if-then-else chain. -/
theorem find?_pair_chain (b1 b2 b3 b4 b5 : Bool) (s1 s2 s3 s4 s5 : String) :
    (([(s1, b1), (s2, b2), (s3, b3), (s4, b4), (s5, b5)].find?
      (fun p => p.2)).map (fun p => p.1)) =
    if b1 then some s1 else if b2 then some s2 else if b3 then some s3
    else if b4 then some s4 else if b5 then some s5 else none := by
  cases b1 <;> cases b2 <;> cases b3 <;> cases b4 <;> cases b5 <;> rfl

/-- C4: with an empty waiver set, is_prohibited_description evaluates the
rules in the fixed order B ("yellow" and "square" both among the description
words), C (target color "red" and shape "square"), D (target strictly
southwest of the agent), E ("small" in the description, target size 2,
shape "circle"), F ("push" in the description, target size 3, shape
"square"), and returns the first matching letter, or none when no rule
matches. -/
theorem is_prohibited_description_first_match (agentPos : Position)
    (targetObject : PositionedObject) (descriptionWords : List String) :
    is_prohibited_description agentPos targetObject descriptionWords [] =
      firstProhibitedRuleLetter agentPos targetObject descriptionWords := by
  rw [firstProhibitedRuleLetter, find?_pair_chain]
  simp only [is_prohibited_description, prohibitionRuleB, prohibitionRuleC,
    prohibitionRuleD, prohibitionRuleE, prohibitionRuleF, List.contains_nil,
    Bool.not_false, Bool.and_true]

/-- Unfolding equation of batched at the empty list. -/
theorem batched_nil (n : Nat) : batched ([] : List α) n = [] := by
  cases n <;> rw [batched]

/-- Unfolding equation of batched at a non-empty list and positive chunk size. -/
theorem batched_cons (x : α) (xs : List α) (m : Nat) :
    batched (x :: xs) (m + 1) =
      (x :: xs).take (m + 1) :: batched ((x :: xs).drop (m + 1)) (m + 1) := by
  rw [batched]

/-- The concatenation of the chunks is the input stream. -/
theorem batched_flatten (m : Nat) :
    ∀ (k : Nat) (l : List α), l.length ≤ k → (batched l (m + 1)).flatten = l := by
  intro k
  induction k with
  | zero =>
    intro l hl
    have : l = [] := List.length_eq_zero.mp (Nat.le_zero.mp hl)
    simp [this, batched_nil]
  | succ k ih =>
    intro l hl
    match l with
    | [] => simp [batched_nil]
    | x :: xs =>
      rw [batched_cons, List.flatten_cons,
        ih ((x :: xs).drop (m + 1)) (by simp at hl ⊢; omega)]
      exact List.take_append_drop _ _

/-- The number of chunks is the ceiling of length over chunk size. -/
theorem batched_length (m : Nat) :
    ∀ (k : Nat) (l : List α), l.length ≤ k →
      (batched l (m + 1)).length = (l.length + m) / (m + 1) := by
  intro k
  induction k with
  | zero =>
    intro l hl
    have : l = [] := List.length_eq_zero.mp (Nat.le_zero.mp hl)
    subst this
    rw [batched_nil]
    simp [Nat.div_eq_of_lt (Nat.lt_succ_self m)]
  | succ k ih =>
    intro l hl
    match l with
    | [] =>
      rw [batched_nil]
      simp [Nat.div_eq_of_lt (Nat.lt_succ_self m)]
    | x :: xs =>
      rw [batched_cons]
      have hkk : ((x :: xs).drop (m + 1)).length ≤ k := by
        simp at hl ⊢
        omega
      rw [List.length_cons, ih ((x :: xs).drop (m + 1)) hkk]
      have hlen : ((x :: xs).drop (m + 1)).length = xs.length + 1 - (m + 1) := by
        simp
      rw [hlen, List.length_cons]
      rcases Nat.lt_or_ge (xs.length + 1) (m + 1 + 1) with hsmall | hbig
      · have h1 : xs.length + 1 - (m + 1) = 0 := by omega
        have hL : (0 + m) / (m + 1) = 0 := by
          rw [Nat.zero_add]
          exact Nat.div_eq_of_lt (Nat.lt_succ_self m)
        have hR : (xs.length + 1 + m) / (m + 1) = 1 := by
          have he : xs.length + 1 + m = xs.length + (m + 1) := by omega
          rw [he, Nat.add_div_right _ (Nat.succ_pos m),
            Nat.div_eq_of_lt (by omega)]
        rw [h1, hL, hR]
      · have he : xs.length + 1 + m = (xs.length + 1 - (m + 1) + m) + (m + 1) := by
          omega
        rw [he, Nat.add_div_right _ (Nat.succ_pos m)]

/-- batched never yields an empty chunk, and yields no chunk at all only on
the empty stream. -/
theorem batched_eq_nil (m : Nat) (l : List α) :
    batched l (m + 1) = [] ↔ l = [] := by
  match l with
  | [] => simp [batched_nil]
  | x :: xs => rw [batched_cons]; simp

/-- All chunks except the last are full. -/
theorem batched_dropLast (m : Nat) :
    ∀ (k : Nat) (l : List α), l.length ≤ k →
      ∀ b ∈ (batched l (m + 1)).dropLast, b.length = m + 1 := by
  intro k
  induction k with
  | zero =>
    intro l hl
    have : l = [] := List.length_eq_zero.mp (Nat.le_zero.mp hl)
    simp [this, batched_nil]
  | succ k ih =>
    intro l hl b hb
    match l with
    | [] => simp [batched_nil] at hb
    | x :: xs =>
      rw [batched_cons] at hb
      rcases Nat.lt_or_ge xs.length (m + 1) with hsmall | hbig
      · have : (x :: xs).drop (m + 1) = [] := by
          apply List.drop_eq_nil_of_le; simp; omega
        rw [this, batched_nil] at hb
        simp at hb
      · have hne : batched ((x :: xs).drop (m + 1)) (m + 1) ≠ [] := by
          intro hcon
          have h0 := (batched_eq_nil m _).mp hcon
          have := congrArg List.length h0
          simp at this
          omega
        rw [List.dropLast_cons_of_ne_nil hne] at hb
        rcases List.mem_cons.mp hb with hb | hb
        · subst hb
          simp
          omega
        · exact ih ((x :: xs).drop (m + 1)) (by simp at hl ⊢; omega) b hb

/-- The last chunk holds the remainder of the stream length modulo the chunk
size (a full chunk when the length divides evenly). -/
theorem batched_getLast (m : Nat) :
    ∀ (k : Nat) (l : List α), l.length ≤ k →
      ((batched l (m + 1)).getLast?.getD []).length =
        (if l.length = 0 then 0
         else if l.length % (m + 1) = 0 then m + 1 else l.length % (m + 1)) := by
  intro k
  induction k with
  | zero =>
    intro l hl
    have : l = [] := List.length_eq_zero.mp (Nat.le_zero.mp hl)
    simp [this, batched_nil]
  | succ k ih =>
    intro l hl
    match l with
    | [] => simp [batched_nil]
    | x :: xs =>
      rw [batched_cons]
      rcases Nat.lt_or_ge xs.length (m + 1) with hsmall | hbig
      · have hdrop : (x :: xs).drop (m + 1) = [] := by
          apply List.drop_eq_nil_of_le; simp; omega
        rw [hdrop, batched_nil]
        simp only [List.getLast?_singleton, Option.getD_some, List.length_take,
          List.length_cons]
        rw [if_neg (show ¬(xs.length + 1 = 0) by omega)]
        rcases Nat.lt_or_ge xs.length m with hlt | hge
        · rw [Nat.mod_eq_of_lt (by omega), if_neg (by omega)]
          omega
        · have hxlen : xs.length = m := by omega
          simp [hxlen, Nat.mod_self]
      · have hne : batched ((x :: xs).drop (m + 1)) (m + 1) ≠ [] := by
          intro hcon
          have h0 := (batched_eq_nil m _).mp hcon
          have := congrArg List.length h0
          simp at this
          omega
        have hcons : ∀ (c : List α) (rest : List (List α)), rest ≠ [] →
            (c :: rest).getLast? = rest.getLast? := by
          intro c rest hrest
          match rest with
          | r :: rs => simp [List.getLast?_cons_cons]
        rw [hcons _ _ hne,
          ih ((x :: xs).drop (m + 1)) (by simp at hl ⊢; omega)]
        have hdropne : ¬(((x :: xs).drop (m + 1)).length = 0) := by
          simp
          omega
        rw [if_neg hdropne, if_neg (show ¬((x :: xs).length = 0) by simp)]
        have hmod : ((x :: xs).drop (m + 1)).length % (m + 1) =
            (x :: xs).length % (m + 1) := by
          simp only [List.length_drop]
          conv_rhs => rw [show (x :: xs).length = ((x :: xs).length - (m + 1)) + (m + 1)
            by simp; omega]
          rw [Nat.add_mod_right]
        rw [hmod]

/-- C7: with chunk size 10000, batching a stream of N examples yields exactly
ceil(N/10000) batches (the per-split batch file count), whose concatenation
in order equals the input stream (so the total example count across batches
is N); every batch has size 10000 except possibly the last, whose size is
N mod 10000 when that is non-zero (and 10000 when the length divides evenly). -/
theorem batched_partition_exact (l : List α) :
    (batched l 10000).flatten = l
    ∧ (batched l 10000).length = (l.length + 9999) / 10000
    ∧ (∀ b ∈ (batched l 10000).dropLast, b.length = 10000)
    ∧ ((batched l 10000).getLast?.getD []).length =
        (if l.length = 0 then 0
         else if l.length % 10000 = 0 then 10000 else l.length % 10000) :=
  ⟨batched_flatten 9999 l.length l le_rfl,
   batched_length 9999 l.length l le_rfl,
   batched_dropLast 9999 l.length l le_rfl,
   batched_getLast 9999 l.length l le_rfl⟩

/-- Every pair the oracle's main loop appends to support_instructions has an
instruction different from the query: the loop body skips any proposed
instruction equal to the query. -/
theorem mem_oracleSupportInstructions_ne_query (query : List String)
    (situation : Situation) (colors nouns : List String) (nOpts : Option Nat)
    (demonstrateTarget : Bool) (allowDemonstrationSplits : List String)
    (allowAnyExample : Bool) (limitVerbAdverb : Bool)
    (p : List String × PositionedObject)
    (hp : p ∈ oracleSupportInstructions query situation colors nouns nOpts
      demonstrateTarget allowDemonstrationSplits allowAnyExample limitVerbAdverb) :
    p.1 ≠ query := by
  simp only [oracleSupportInstructions] at hp
  rcases List.mem_flatMap.mp hp with ⟨dw, _, hdw⟩
  rcases List.mem_filterMap.mp hdw with ⟨combo, _, hcombo⟩
  by_cases h1 : ((is_prohibited_action_adverb_combo combo.1 combo.2).isSome
      && !allowAnyExample) = true
  · simp [h1] at hcombo
  · rw [if_neg (by simpa using h1)] at hcombo
    by_cases h2 : combo.1 ++ query.filter (fun w => w = "a") ++ dw.1 ++ combo.2 = query
    · simp only [h2, if_pos rfl] at hcombo
      cases hcombo
    · rw [if_neg h2] at hcombo
      cases hcombo
      exact h2

/-- C1: for every query instruction, situation and option combination, no
(support instruction, target) pair returned by
generate_relevant_instructions_gscan_oracle has a support instruction token
sequence equal to the query instruction's token sequence. -/
theorem oracle_never_emits_query_instruction (query : List String)
    (situation : Situation) (colors nouns : List String) (nOpts : Option Nat)
    (demonstrateTarget : Bool) (allowDemonstrationSplits : List String)
    (allowAnyExample : Bool) (numDemos : Nat) (pickRandom : Bool)
    (limitVerbAdverb : Bool) (perm : List Nat) :
    query ∉ (generate_relevant_instructions_gscan_oracle query situation colors
      nouns nOpts demonstrateTarget allowDemonstrationSplits allowAnyExample
      numDemos pickRandom limitVerbAdverb perm).map Prod.fst := by
  intro hmem
  rcases List.mem_map.mp hmem with ⟨p, hp, hpq⟩
  have hsup : p ∈ oracleSupportInstructions query situation colors nouns nOpts
      demonstrateTarget allowDemonstrationSplits allowAnyExample limitVerbAdverb := by
    simp only [generate_relevant_instructions_gscan_oracle] at hp
    split at hp
    · cases hp
    · split at hp
      · rcases List.mem_filterMap.mp hp with ⟨i, _, hi⟩
        exact List.get?_mem hi
      · exact List.mem_of_mem_take hp
  exact mem_oracleSupportInstructions_ne_query query situation colors nouns nOpts
    demonstrateTarget allowDemonstrationSplits allowAnyExample limitVerbAdverb p hsup hpq

/-- C10: in generate_relevant_instructions_gscan_oracle with
allow_any_example = false and demonstrate_target = true, whenever at least
one alternative survives the prohibition filter, the true target's own
prohibition check is evaluated with an empty waiver set, and the target is
removed from the candidate option list whenever any rule B-F matches — for
every value of allow_demonstration_splits, including ones that contain the
matching letter: the waiver set enters the filtering of the alternatives
only, never the demotion of the true target. -/
theorem oracle_target_demotion_ignores_waivers (query : List String)
    (situation : Situation) (colors nouns : List String) (nOpts : Option Nat)
    (allowDemonstrationSplits : List String)
    (hfil : oracleFilteredSortedOtherDescriptionWords query situation colors nouns
      allowDemonstrationSplits false ≠ [])
    (hpro : (is_prohibited_description situation.agentPos situation.targetObject
      (oracleQueryDescriptionWords query colors nouns) []).isSome = true) :
    oracleDescriptionOptions query situation colors nouns nOpts true
      allowDemonstrationSplits false =
      pyTruncate nOpts (oracleFilteredSortedOtherDescriptionWords query situation
        colors nouns allowDemonstrationSplits false) := by
  have h1 : (oracleFilteredSortedOtherDescriptionWords query situation colors nouns
      allowDemonstrationSplits false).isEmpty = false := by
    simpa [List.isEmpty_iff] using hfil
  simp [oracleDescriptionOptions, h1, hpro]

/-- Witness for the target-demotion theorem: against the query "walk to a
yellow square", the yellow-square target matches rule B with the empty
waiver set, a blue-square alternative survives, and with waiver set ["B"]
(which waives exactly the matching letter) the final option list still
drops the target. -/
theorem oracle_target_demotion_ignores_waivers_witness :
    oracleFilteredSortedOtherDescriptionWords demotionWitnessQuery
      demotionWitnessSituation gscanColors gscanNouns ["B"] false ≠ []
    ∧ (is_prohibited_description demotionWitnessSituation.agentPos
        demotionWitnessSituation.targetObject
        (oracleQueryDescriptionWords demotionWitnessQuery gscanColors gscanNouns)
        []).isSome = true
    ∧ is_prohibited_description demotionWitnessSituation.agentPos
        demotionWitnessSituation.targetObject
        (oracleQueryDescriptionWords demotionWitnessQuery gscanColors gscanNouns)
        [] = some "B"
    ∧ oracleDescriptionOptions demotionWitnessQuery demotionWitnessSituation
        gscanColors gscanNouns none true ["B"] false =
        pyTruncate none (oracleFilteredSortedOtherDescriptionWords
          demotionWitnessQuery demotionWitnessSituation gscanColors gscanNouns
          ["B"] false) :=
  ⟨by decide, by decide, by decide,
   oracle_target_demotion_ignores_waivers demotionWitnessQuery
     demotionWitnessSituation gscanColors gscanNouns none ["B"] (by decide)
     (by decide)⟩

/-- C9: with valid Python dicts (duplicate-free key lists per category),
construction of a Vocabulary fails if and only if some surface word appears
in more than one of the six category bindings; when the six key sets are
pairwise disjoint it succeeds, and the getters return exactly the per-category
key lists (fresh copies of immutable data in this embedding). -/
theorem vocabulary_init_fails_iff_collision
    (iv tv adv n c s : List (String × String))
    (hiv : (iv.map Prod.fst).Nodup) (htv : (tv.map Prod.fst).Nodup)
    (hadv : (adv.map Prod.fst).Nodup) (hn : (n.map Prod.fst).Nodup)
    (hc : (c.map Prod.fst).Nodup) (hs : (s.map Prod.fst).Nodup) :
    (vocabularyInit iv tv adv n c s = none ↔ vocabularyWordCollision iv tv adv n c s)
    ∧ (∀ v, vocabularyInit iv tv adv n c s = some v →
        v.getIntransitiveVerbs = iv.map Prod.fst
        ∧ v.getTransitiveVerbs = tv.map Prod.fst
        ∧ v.getAdverbs = adv.map Prod.fst
        ∧ v.getNouns = n.map Prod.fst
        ∧ v.getColorAdjectives = c.map Prod.fst
        ∧ v.getSizeAdjectives = s.map Prod.fst) := by
  have hinit : vocabularyInit iv tv adv n c s = none ↔
      ¬ (vocabularyAllWords iv tv adv n c s).Nodup := by
    unfold vocabularyInit
    split_ifs with h
    · simp [h]
    · simp [h]
  have key : (vocabularyAllWords iv tv adv n c s).Nodup ↔
      List.Pairwise List.Disjoint ([iv, tv, adv, n, c, s].map (List.map Prod.fst)) := by
    have hall : vocabularyAllWords iv tv adv n c s =
        ([iv, tv, adv, n, c, s].map (List.map Prod.fst)).flatten := by
      simp [vocabularyAllWords]
    rw [hall, List.nodup_flatten]
    constructor
    · rintro ⟨-, h2⟩
      exact h2
    · intro h
      refine ⟨?_, h⟩
      intro l hl
      simp only [List.map_cons, List.map_nil, List.mem_cons, List.not_mem_nil,
        or_false] at hl
      rcases hl with h' | h' | h' | h' | h' | h' <;> subst h' <;> assumption
  have hcol : vocabularyWordCollision iv tv adv n c s ↔
      ¬ List.Pairwise List.Disjoint ([iv, tv, adv, n, c, s].map (List.map Prod.fst)) := by
    rw [List.pairwise_iff_get]
    constructor
    · rintro ⟨w, i, j, hij, hwi, hwj⟩ hall
      exact hall i j hij hwi hwj
    · intro hnot
      push_neg at hnot
      rcases hnot with ⟨i, j, hij, hdis⟩
      have hw : ∃ w, w ∈ ([iv, tv, adv, n, c, s].map (List.map Prod.fst)).get i
          ∧ w ∈ ([iv, tv, adv, n, c, s].map (List.map Prod.fst)).get j := by
        by_contra hno
        push_neg at hno
        apply hdis
        intro a hai haj
        exact hno a hai haj
      rcases hw with ⟨w, hwi, hwj⟩
      exact ⟨w, i, j, hij, hwi, hwj⟩
  refine ⟨?_, ?_⟩
  · rw [hinit, hcol]
    exact not_congr key
  · intro v hv
    unfold vocabularyInit at hv
    split_ifs at hv with h
    cases hv
    exact ⟨rfl, rfl, rfl, rfl, rfl, rfl⟩

/-- Witness for the vocabulary construction theorem: a concrete binding set
in which the surface word "circle" is bound both as a noun and as a color
adjective; the per-category key lists are duplicate-free, and the theorem
applies. -/
theorem vocabulary_init_fails_iff_collision_witness :
    (([("walk", "walk")] : List (String × String)).map Prod.fst).Nodup
    ∧ (vocabularyInit [("walk", "walk")] [("push", "push"), ("pull", "pull")]
        [("quickly", "quickly")] [("circle", "circle")] [("circle", "red")]
        [("small", "small")] = none
      ↔ vocabularyWordCollision [("walk", "walk")] [("push", "push"), ("pull", "pull")]
        [("quickly", "quickly")] [("circle", "circle")] [("circle", "red")]
        [("small", "small")]) :=
  ⟨by decide,
   (vocabulary_init_fails_iff_collision [("walk", "walk")]
     [("push", "push"), ("pull", "pull")] [("quickly", "quickly")]
     [("circle", "circle")] [("circle", "red")] [("small", "small")]
     (by decide) (by decide) (by decide) (by decide) (by decide) (by decide)).1⟩

/-- The command-index fold, run from an arbitrary accumulated map, appends
to each bucket exactly the indices of the remaining examples with that
command key, in traversal order. -/
theorem sort_indices_foldl (l : List (Nat × Example)) (m0 : String → List Nat)
    (key : String) :
    (l.foldl
      (fun m p => fun k => if k = commandSpaceKey p.2 then m k ++ [p.1] else m k)
      m0) key
      = m0 key ++ (l.filter (fun p => commandSpaceKey p.2 = key)).map Prod.fst := by
  induction l generalizing m0 with
  | nil => simp
  | cons p l ih =>
    simp only [List.foldl_cons, List.filter_cons]
    rw [ih]
    by_cases h : commandSpaceKey p.2 = key
    · simp [h, List.append_assoc]
    · have h' : ¬(key = commandSpaceKey p.2) := fun hh => h hh.symm
      simp [h, h']

/-- Every index produced by enumeration from offset k is at least k. -/
theorem pyEnumFrom_fst_ge (l : List α) :
    ∀ (k : Nat) (b : Nat × α), b ∈ pyEnumFrom k l → k ≤ b.1 := by
  induction l with
  | nil => intro k b hb; cases hb
  | cons x xs ih =>
    intro k b hb
    cases hb with
    | head => exact le_rfl
    | tail _ hb => exact Nat.le_of_succ_le (ih (k + 1) b hb)

/-- Enumeration indices are strictly increasing. -/
theorem pyEnumFrom_pairwise (l : List α) :
    ∀ (k : Nat), (pyEnumFrom k l).Pairwise (fun a b => a.1 < b.1) := by
  induction l with
  | nil => intro k; exact List.Pairwise.nil
  | cons x xs ih =>
    intro k
    refine List.Pairwise.cons ?_ (ih (k + 1))
    intro b hb
    exact Nat.lt_of_succ_le (pyEnumFrom_fst_ge xs (k + 1) b hb)

/-- Membership in the enumeration from offset k is indexed lookup. -/
theorem pyEnumFrom_mem (l : List α) :
    ∀ (k i : Nat) (e : α),
      ((i, e) ∈ pyEnumFrom k l ↔ k ≤ i ∧ l.get? (i - k) = some e) := by
  induction l with
  | nil => intro k i e; simp [pyEnumFrom]
  | cons x xs ih =>
    intro k i e
    constructor
    · intro hb
      cases hb with
      | head => simp
      | tail _ hb =>
        rcases (ih (k + 1) i e).mp hb with ⟨hk, hget⟩
        refine ⟨by omega, ?_⟩
        have : i - k = (i - (k + 1)) + 1 := by omega
        rw [this]
        simpa using hget
    · rintro ⟨hk, hget⟩
      rcases Nat.eq_or_lt_of_le hk with heq | hlt
      · subst heq
        simp at hget
        subst hget
        exact List.mem_cons_self _ _
      · refine List.mem_cons_of_mem _ ((ih (k + 1) i e).mpr ⟨hlt, ?_⟩)
        have : i - k = (i - (k + 1)) + 1 := by omega
        rw [this] at hget
        simpa using hget

/-- The bucket of a key is the filtered enumeration of the corpus. -/
theorem sort_indices_by_command_eq (examples : List Example) (key : String) :
    sort_indices_by_command examples key =
      ((pyEnum examples).filter
        (fun p => commandSpaceKey p.2 = key)).map Prod.fst := by
  unfold sort_indices_by_command
  rw [sort_indices_foldl]
  simp

/-- Correctness of bisectLeftAux: with enough fuel and a sorted window, the
result is the leftmost insertion point. -/
theorem bisectLeftAux_spec (a : List Nat) (x : Nat)
    (mono : ∀ i j, i ≤ j → j < a.length → a.getD i 0 ≤ a.getD j 0) :
    ∀ (fuel lo hi : Nat), hi - lo ≤ fuel → lo ≤ hi → hi ≤ a.length →
      (∀ j, j < lo → a.getD j 0 < x) →
      (∀ j, hi ≤ j → j < a.length → x ≤ a.getD j 0) →
      lo ≤ bisectLeftAux a x fuel lo hi
      ∧ bisectLeftAux a x fuel lo hi ≤ hi
      ∧ (∀ j, j < bisectLeftAux a x fuel lo hi → a.getD j 0 < x)
      ∧ (∀ j, bisectLeftAux a x fuel lo hi ≤ j → j < a.length →
          x ≤ a.getD j 0) := by
  intro fuel
  induction fuel with
  | zero =>
    intro lo hi hfuel hlh hha hlow hhigh
    have : hi = lo := by omega
    subst this
    exact ⟨le_rfl, le_rfl, hlow, hhigh⟩
  | succ fuel ih =>
    intro lo hi hfuel hlh hha hlow hhigh
    rw [bisectLeftAux]
    by_cases hlt : lo < hi
    · rw [if_pos hlt]
      have hmidlo : lo ≤ (lo + hi) / 2 := by omega
      have hmidhi : (lo + hi) / 2 < hi := by omega
      by_cases hcmp : a.getD ((lo + hi) / 2) 0 < x
      · rw [if_pos hcmp]
        have hpost := ih ((lo + hi) / 2 + 1) hi (by omega) (by omega) hha
          (fun j hj => by
            rcases Nat.lt_or_ge j ((lo + hi) / 2 + 1) with h' | h'
            · exact lt_of_le_of_lt (mono j ((lo + hi) / 2) (by omega) (by omega)) hcmp
            · omega)
          hhigh
        exact ⟨by omega, by omega, hpost.2.2.1, hpost.2.2.2⟩
      · rw [if_neg hcmp]
        have hxle : x ≤ a.getD ((lo + hi) / 2) 0 := by omega
        have hpost := ih lo ((lo + hi) / 2) (by omega) (by omega) (by omega) hlow
          (fun j hj hjlen =>
            le_trans hxle (mono ((lo + hi) / 2) j hj hjlen))
        exact ⟨hpost.1, by omega, hpost.2.2.1, hpost.2.2.2⟩
    · rw [if_neg hlt]
      have : hi = lo := by omega
      subst this
      exact ⟨le_rfl, le_rfl, hlow, hhigh⟩

/-- find_in_sorted_list is exactly membership, on strictly sorted lists. -/
theorem find_in_sorted_list_iff_mem (a : List Nat) (x : Nat)
    (hsorted : a.Pairwise (· < ·)) :
    (find_in_sorted_list a x = true ↔ x ∈ a) := by
  have mono : ∀ i j, i ≤ j → j < a.length → a.getD i 0 ≤ a.getD j 0 := by
    intro i j hij hjlen
    rcases Nat.eq_or_lt_of_le hij with heq | hlt
    · exact heq ▸ le_rfl
    · have := List.pairwise_iff_get.mp hsorted ⟨i, by omega⟩ ⟨j, hjlen⟩ hlt
      rw [List.getD_eq_getElem a 0 (by omega), List.getD_eq_getElem a 0 hjlen]
      exact le_of_lt this
  have hpost := bisectLeftAux_spec a x mono a.length 0 a.length (by omega)
    (Nat.zero_le _) le_rfl (fun j hj => by omega) (fun j hj hjlen => by omega)
  rcases hpost with ⟨-, hle, hlowpost, hhighpost⟩
  unfold find_in_sorted_list bisectLeft
  set r := bisectLeftAux a x a.length 0 a.length with hr
  constructor
  · intro htrue
    simp only [Bool.and_eq_true, bne_iff_ne, ne_eq, beq_iff_eq] at htrue
    rcases htrue with ⟨hne, heq⟩
    have hrlen : r < a.length := by omega
    rw [← heq, List.getD_eq_getElem a 0 hrlen]
    exact List.getElem_mem hrlen
  · intro hmem
    rcases List.mem_iff_get.mp hmem with ⟨⟨j, hjlen⟩, hj⟩
    have hjx : a.getD j 0 = x := by
      rw [List.getD_eq_getElem a 0 hjlen]
      exact hj
    have hrj : r ≤ j := by
      by_contra hcon
      have := hlowpost j (by omega)
      omega
    have hrlen : r < a.length := by omega
    have h1 : x ≤ a.getD r 0 := hhighpost r le_rfl hrlen
    have h2 : a.getD r 0 ≤ a.getD j 0 := mono r j hrj hjlen
    have : a.getD r 0 = x := by omega
    simp only [Bool.and_eq_true, bne_iff_ne, ne_eq, beq_iff_eq]
    exact ⟨by omega, this⟩

/-- C8: every bucket of the command-text index built by
sort_indices_by_command is a strictly increasing sequence of example
indices; an index is in the bucket of a key exactly when its example's
space-joined command equals that key; and find_in_sorted_list on a bucket
decides membership exactly — hence the lookup-based strategies exclude
precisely the candidate examples sharing the query's command text. -/
theorem command_index_sorted_and_search_exact (examples : List Example)
    (key : String) :
    (sort_indices_by_command examples key).Pairwise (· < ·)
    ∧ (∀ x : Nat, x ∈ sort_indices_by_command examples key ↔
        ∃ e, examples.get? x = some e ∧ commandSpaceKey e = key)
    ∧ (∀ x : Nat,
        (find_in_sorted_list (sort_indices_by_command examples key) x = true ↔
          x ∈ sort_indices_by_command examples key)) := by
  have hsorted : (sort_indices_by_command examples key).Pairwise (· < ·) := by
    rw [sort_indices_by_command_eq, List.pairwise_map]
    exact (pyEnumFrom_pairwise examples 0).sublist (List.filter_sublist _)
  refine ⟨hsorted, ?_, fun x => find_in_sorted_list_iff_mem _ x hsorted⟩
  intro x
  rw [sort_indices_by_command_eq]
  constructor
  · intro hx
    rcases List.mem_map.mp hx with ⟨p, hp, hpx⟩
    rcases List.mem_filter.mp hp with ⟨hpmem, hpkey⟩
    rcases p with ⟨i, e⟩
    cases hpx
    have hmem := (pyEnumFrom_mem examples 0 i e).mp hpmem
    exact ⟨e, by simpa using hmem.2, by simpa using hpkey⟩
  · rintro ⟨e, hget, hkey⟩
    refine List.mem_map.mpr ⟨(x, e), List.mem_filter.mpr ⟨?_, by simpa using hkey⟩, rfl⟩
    exact (pyEnumFrom_mem examples 0 x e).mpr ⟨Nat.zero_le _, by simpa using hget⟩

/-- Counterexample to C5 as stated: at a concrete query and corpus whose
target-position bucket holds exactly one candidate after excluding the
examples sharing the query's command text, and with num_demos = 5, the
strategy returns 1 support entry, not 5 — the source samples
size = min(len(possible_demos), num_demos) = 1. -/
theorem find_any_object_same_position_five_counterexample :
    ((strategyIndexByTargetXY 1 0).filter
      (fun q => !(find_in_sorted_list
        (strategyIndexByCommand "walk to a red circle") q)) = [1])
    ∧ ((find_supports_with_any_target_object_in_same_position
        ["walk", "to", "a", "red", "circle"] codecWitnessSituation
        strategyIndexByTargetXY strategyIndexByCommand strategyExamples 5
        (fun _ => 0)).supportInstructions).length = 1
    ∧ ¬(((find_supports_with_any_target_object_in_same_position
        ["walk", "to", "a", "red", "circle"] codecWitnessSituation
        strategyIndexByTargetXY strategyIndexByCommand strategyExamples 5
        (fun _ => 0)).supportInstructions).length = 5) := by
  decide

/-- C5 (amended): when the bucket for the query target's absolute (x, y)
position contains exactly one candidate p after excluding examples sharing
the query's command text, and num_demos is at least 1, the strategy returns
exactly min(1, num_demos) = 1 support entry, sampled with replacement from
that singleton bucket (so derived from example p). -/
theorem find_any_object_same_position_singleton_amended
    (command : List String) (situation : Situation)
    (indexByTargetXY : Nat → Nat → List Nat) (indexByCommand : String → List Nat)
    (trainExamples : List Example) (numDemos : Nat) (draws : Nat → Nat) (p : Nat)
    (hnum : 1 ≤ numDemos) (hdraw : draws 0 = 0)
    (hbucket : (indexByTargetXY situation.targetObject.position.column
        situation.targetObject.position.row).filter
        (fun q => !(find_in_sorted_list
          (indexByCommand (String.intercalate " " command)) q)) = [p]) :
    find_supports_with_any_target_object_in_same_position command situation
      indexByTargetXY indexByCommand trainExamples numDemos draws =
      { supportInstructions :=
          [parse_command_repr (trainExamples.getD p default).command],
        supportTargets :=
          [parse_command_repr (trainExamples.getD p default).targetCommands],
        supportLayouts := [(trainExamples.getD p default).situation] } := by
  simp only [find_supports_with_any_target_object_in_same_position]
  rw [hbucket]
  have hmin : min ([p].length) numDemos = 1 := by
    simp [Nat.min_eq_left, hnum]
  rw [hmin]
  have hrange : List.range 1 = [0] := rfl
  rw [hrange]
  simp [Function.comp, hdraw]

/-- Witness for the amended C5 theorem at the concrete fixture corpus. -/
theorem find_any_object_same_position_singleton_amended_witness :
    1 ≤ 5
    ∧ (fun (_ : Nat) => 0) 0 = 0
    ∧ ((strategyIndexByTargetXY 1 0).filter
        (fun q => !(find_in_sorted_list
          (strategyIndexByCommand "walk to a red circle") q)) = [1])
    ∧ find_supports_with_any_target_object_in_same_position
        ["walk", "to", "a", "red", "circle"] codecWitnessSituation
        strategyIndexByTargetXY strategyIndexByCommand strategyExamples 5
        (fun _ => 0) =
      { supportInstructions :=
          [parse_command_repr ((strategyExamples.getD 1 default).command)],
        supportTargets :=
          [parse_command_repr ((strategyExamples.getD 1 default).targetCommands)],
        supportLayouts := [(strategyExamples.getD 1 default).situation] } :=
  ⟨by decide, rfl, by decide,
   find_any_object_same_position_singleton_amended
     ["walk", "to", "a", "red", "circle"] codecWitnessSituation
     strategyIndexByTargetXY strategyIndexByCommand strategyExamples 5
     (fun _ => 0) 1 (by decide) rfl (by decide)⟩

/-- C6: the random_find_matching strategy rejoins the characters of each
drawn command key with spaces before looking it up, so every lookup on a
multi-character key misses and the returned support lists are empty — at a
concrete index holding the drawn key "push a red circle", the drawn key is
turned into "p u s h   a   r e d   c i r c l e", the lookup misses and the
strategy returns no supports, where the claim promises one support per
drawn key. -/
theorem random_find_matching_char_join_returns_empty :
    generate_random_instructions_find_support_in_any_layout randomStrategyIndex
      strategyExamples ["push a red circle"] (fun _ => 0)
      = ([], [], [])
    ∧ spaceJoinChars "push a red circle" = "p u s h   a   r e d   c i r c l e"
    ∧ randomStrategyIndex.find?
        (fun q => q.1 = spaceJoinChars "push a red circle") = none := by
  decide

/-- Two positions with equal rows and columns are equal. -/
theorem Position.eq_of_rowcol {p q : Position} (h1 : p.row = q.row)
    (h2 : p.column = q.column) : p = q := by
  cases p
  cases q
  simp_all

/-- Writing one non-box object into the dense grid leaves the agent channels
(everything past channel 2) of every cell unchanged. -/
theorem denseSetObject_drop3 (c2i n2i : String → Nat)
    (g : Nat → Nat → List Nat) (o : PositionedObject) (r c : Nat) :
    ((denseSetObject c2i n2i false g o) r c).drop 3 = (g r c).drop 3 := by
  unfold denseSetObject
  by_cases h : r = o.position.row ∧ c = o.position.column
  · simp [h]
  · simp [h]

/-- Folding any list of objects into the dense grid leaves the agent
channels of every cell unchanged. -/
theorem denseFold_drop3 (c2i n2i : String → Nat) :
    ∀ (placed : List PositionedObject) (g : Nat → Nat → List Nat) (r c : Nat),
      ((placed.foldl (denseSetObject c2i n2i false) g) r c).drop 3 = (g r c).drop 3 := by
  intro placed
  induction placed with
  | nil => intro g r c; rfl
  | cons o os ih =>
    intro g r c
    rw [List.foldl_cons, ih]
    exact denseSetObject_drop3 c2i n2i g o r c

/-- Characterisation of the dense-grid object fold at a cell, for objects at
pairwise distinct positions: the cell holds the attributes of the unique
object placed there over the untouched agent channels, or is untouched. -/
theorem denseFold_cell (c2i n2i : String → Nat) :
    ∀ (placed : List PositionedObject) (g : Nat → Nat → List Nat) (r c : Nat),
      (placed.map (fun o => o.position)).Nodup →
      (placed.foldl (denseSetObject c2i n2i false) g) r c =
        (match placed.find?
            (fun o => decide (r = o.position.row ∧ c = o.position.column)) with
         | some o =>
            [o.object.size, c2i o.object.color, n2i o.object.shape] ++ (g r c).drop 3
         | none => g r c) := by
  intro placed
  induction placed with
  | nil => intro g r c _; rfl
  | cons o os ih =>
    intro g r c hnodup
    rw [List.map_cons, List.nodup_cons] at hnodup
    rcases hnodup with ⟨hhead, htail⟩
    rw [List.foldl_cons, ih _ r c htail]
    by_cases hoc : r = o.position.row ∧ c = o.position.column
    · have hfind : os.find?
          (fun o => decide (r = o.position.row ∧ c = o.position.column)) = none := by
        rw [List.find?_eq_none]
        intro o' ho' hpred
        apply hhead
        rw [decide_eq_true_iff] at hpred
        have heq : o'.position = o.position :=
          Position.eq_of_rowcol (hpred.1.symm.trans hoc.1) (hpred.2.symm.trans hoc.2)
        rw [← heq]
        exact List.mem_map.mpr ⟨o', ho', rfl⟩
      rw [hfind]
      have hfind2 : (o :: os).find?
          (fun o => decide (r = o.position.row ∧ c = o.position.column)) = some o := by
        rw [List.find?_cons_of_pos]
        exact decide_eq_true_iff.mpr hoc
      rw [hfind2]
      unfold denseSetObject
      simp [hoc]
    · have hg : denseSetObject c2i n2i false g o r c = g r c := by
        unfold denseSetObject
        simp [hoc]
      have hfind2 : (o :: os).find?
          (fun o => decide (r = o.position.row ∧ c = o.position.column)) =
          os.find? (fun o => decide (r = o.position.row ∧ c = o.position.column)) := by
        rw [List.find?_cons_of_neg]
        simpa using hoc
      rw [hfind2, hg]

/-- The flattened "all"-scheme output is the row-major map over the
position product. -/
theorem parse_all_eq (s : Situation) (gridSize : Nat) (c2i n2i : String → Nat)
    (reascan : Bool) :
    parse_sparse_situation s gridSize c2i n2i .all reascan =
      ((List.range gridSize) ×ˢ (List.range gridSize)).map
        (fun rc => denseGrid s c2i n2i reascan rc.1 rc.2 ++ [rc.1 + 1, rc.2 + 1]) := by
  simp only [parse_sparse_situation, add_positional_information_to_grid,
    SProd.sprod, List.product, List.map_flatMap, List.map_map]
  rfl

/-- find? over a mapped list whose predicate picks out exactly one source
element returns the image of that element. -/
theorem find?_unique_map {ι α : Type} (f : ι → α) (pred : α → Bool) (i₀ : ι) :
    ∀ (l : List ι), i₀ ∈ l → (∀ i ∈ l, (pred (f i) = true ↔ i = i₀)) →
      (l.map f).find? pred = some (f i₀) := by
  intro l
  induction l with
  | nil => intro h; cases h
  | cons x xs ih =>
    intro hmem huniq
    by_cases hx : pred (f x) = true
    · have hxi : x = i₀ := (huniq x (List.mem_cons_self x xs)).mp hx
      subst hxi
      rw [List.map_cons, List.find?_cons_of_pos _ hx]
    · have hxi : x ≠ i₀ := fun h => hx ((huniq x (List.mem_cons_self x xs)).mpr h)
      have hi₀ : i₀ ∈ xs := by
        rcases List.mem_cons.mp hmem with h | h
        · exact absurd h.symm hxi
        · exact h
      rw [List.map_cons, List.find?_cons_of_neg _ (by simpa using hx)]
      exact ih hi₀ (fun i hi => huniq i (List.mem_cons_of_mem _ hi))

/-- The row-major filterMap that extracts, at every grid position, the
unique object found there, is a permutation of the object list itself. -/
theorem filterMap_find?_perm {β : Type} (F : PositionedObject → β) :
    ∀ (placed : List PositionedObject) (l : List (Nat × Nat)),
      l.Nodup →
      (placed.map (fun o => o.position)).Nodup →
      (∀ o ∈ placed, (o.position.row, o.position.column) ∈ l) →
      List.Perm
        (l.filterMap (fun rc =>
          (placed.find?
            (fun o => decide (rc.1 = o.position.row ∧ rc.2 = o.position.column))).map F))
        (placed.map F) := by
  intro placed
  induction placed with
  | nil =>
    intro l _ _ _
    simp only [List.find?_nil, Option.map_none', List.map_nil]
    have h : ∀ (t : List (Nat × Nat)),
        t.filterMap (fun _ => (none : Option β)) = [] := by
      intro t
      induction t with
      | nil => rfl
      | cons x xs ihl => rw [List.filterMap_cons_none rfl]; exact ihl
    rw [h l]
  | cons o os ih =>
    intro l hlnodup hnodup hmemall
    rw [List.map_cons, List.nodup_cons] at hnodup
    rcases hnodup with ⟨hhead, htail⟩
    have hp₀ : (o.position.row, o.position.column) ∈ l :=
      hmemall o (List.mem_cons_self o os)
    obtain ⟨l₁, l₂, rfl⟩ := List.append_of_mem hp₀
    have hmid := List.nodup_middle.mp hlnodup
    rw [List.nodup_cons] at hmid
    rcases hmid with ⟨hp₀nm, hl12⟩
    have hkey1 : ∀ q ∈ l₁ ++ l₂,
        ((o :: os).find?
          (fun o' => decide (q.1 = o'.position.row ∧ q.2 = o'.position.column))).map F =
        (os.find?
          (fun o' => decide (q.1 = o'.position.row ∧ q.2 = o'.position.column))).map F := by
      intro q hq
      have hqne : ¬(q.1 = o.position.row ∧ q.2 = o.position.column) := by
        intro hcon
        apply hp₀nm
        have : q = (o.position.row, o.position.column) := by
          cases q
          simp at hcon ⊢
          omega
        rw [← this]
        exact hq
      rw [List.find?_cons_of_neg _ (by simpa using hqne)]
    have hkey2 :
        ((o :: os).find? (fun o' =>
          decide ((o.position.row, o.position.column).1 = o'.position.row
            ∧ (o.position.row, o.position.column).2 = o'.position.column))).map F =
          some (F o) := by
      rw [List.find?_cons_of_pos _ (by simp)]
      rfl
    have hkey3 : os.find? (fun o' =>
        decide ((o.position.row, o.position.column).1 = o'.position.row
          ∧ (o.position.row, o.position.column).2 = o'.position.column)) = none := by
      rw [List.find?_eq_none]
      intro o' ho' hpred
      apply hhead
      rw [decide_eq_true_iff] at hpred
      have heq : o'.position = o.position :=
        Position.eq_of_rowcol hpred.1.symm hpred.2.symm
      rw [← heq]
      exact List.mem_map.mpr ⟨o', ho', rfl⟩
    have hsplit : List.filterMap
        (fun rc => (List.find? (fun o' => decide (rc.1 = o'.position.row
          ∧ rc.2 = o'.position.column)) (o :: os)).map F)
        ((o.position.row, o.position.column) :: l₂)
        = F o :: List.filterMap
          (fun rc => (List.find? (fun o' => decide (rc.1 = o'.position.row
            ∧ rc.2 = o'.position.column)) (o :: os)).map F) l₂ :=
      List.filterMap_cons_some hkey2
    rw [List.filterMap_append, hsplit]
    have e1 := List.filterMap_congr
      (fun q hq => hkey1 q (List.mem_append_left l₂ hq))
    have e2 := List.filterMap_congr
      (fun q hq => hkey1 q (List.mem_append_right l₁ hq))
    rw [e1, e2]
    refine List.Perm.trans List.perm_middle ?_
    refine List.Perm.cons _ ?_
    rw [← List.filterMap_append]
    apply ih (l₁ ++ l₂) hl12 htail
    intro o' ho'
    have hin : (o'.position.row, o'.position.column)
        ∈ l₁ ++ (o.position.row, o.position.column) :: l₂ :=
      hmemall o' (List.mem_cons_of_mem _ ho')
    have hne : (o'.position.row, o'.position.column)
        ≠ (o.position.row, o.position.column) := by
      intro hcon
      apply hhead
      rw [Prod.mk.injEq] at hcon
      have heq : o'.position = o.position :=
        Position.eq_of_rowcol hcon.1 hcon.2
      rw [← heq]
      exact List.mem_map.mpr ⟨o', ho', rfl⟩
    rcases List.mem_append.mp hin with h | h
    · exact List.mem_append_left _ h
    · rcases List.mem_cons.mp h with h | h
      · exact absurd h hne
      · exact List.mem_append_right _ h

/-- Characterisation of the full dense grid at a cell: the unique object
there (if any) over the agent flag/direction channels, which are present
exactly at the agent's cell. -/
theorem denseGrid_cell (s : Situation) (c2i n2i : String → Nat)
    (hpos : (s.placedObjects.map (fun o => o.position)).Nodup) (r c : Nat) :
    denseGrid s c2i n2i false r c =
      (match s.placedObjects.find?
          (fun o => decide (r = o.position.row ∧ c = o.position.column)) with
       | some o =>
          [o.object.size, c2i o.object.color, n2i o.object.shape]
            ++ (if r = s.agentPos.row ∧ c = s.agentPos.column
                then [1, s.agentDirection] else [0, 0])
       | none =>
          if r = s.agentPos.row ∧ c = s.agentPos.column
          then [0, 0, 0, 1, s.agentDirection] else [0, 0, 0, 0, 0]) := by
  unfold denseGrid
  rw [denseFold_cell c2i n2i s.placedObjects _ r c hpos]
  have hinit : denseSetAgent (fun _ _ => denseZeroCell false) s false r c =
      (if r = s.agentPos.row ∧ c = s.agentPos.column
       then [0, 0, 0, 1, s.agentDirection] else [0, 0, 0, 0, 0]) := by
    unfold denseSetAgent denseAgentCell denseZeroCell
    by_cases h : r = s.agentPos.row ∧ c = s.agentPos.column
    · simp only [if_pos h]
      rfl
    · simp only [if_neg h]
      rfl
  rw [hinit]
  cases hfind : s.placedObjects.find?
      (fun o => decide (r = o.position.row ∧ c = o.position.column)) with
  | none => rfl
  | some o =>
    by_cases h : r = s.agentPos.row ∧ c = s.agentPos.column
    · simp only [if_pos h]
      rfl
    · simp only [if_neg h]
      rfl

/-- The agent-flag channel of a flattened "all"-scheme cell is 1 exactly at
the agent's cell. -/
theorem denseGrid_flag (s : Situation) (c2i n2i : String → Nat)
    (hpos : (s.placedObjects.map (fun o => o.position)).Nodup) (r c : Nat) :
    (denseGrid s c2i n2i false r c ++ [r + 1, c + 1]).getD 3 0 =
      (if r = s.agentPos.row ∧ c = s.agentPos.column then 1 else 0) := by
  rw [denseGrid_cell s c2i n2i hpos r c]
  cases hf : s.placedObjects.find?
      (fun o => decide (r = o.position.row ∧ c = o.position.column)) with
  | some o =>
    by_cases h : r = s.agentPos.row ∧ c = s.agentPos.column
    · simp only [if_pos h]
      rfl
    · simp only [if_neg h]
      rfl
  | none =>
    by_cases h : r = s.agentPos.row ∧ c = s.agentPos.column
    · simp only [if_pos h]
      rfl
    · simp only [if_neg h]
      rfl

/-- Channels 4, 5 and 6 of the agent's flattened cell hold direction and the
1-based coordinates. -/
theorem denseGrid_agent_cell (s : Situation) (c2i n2i : String → Nat)
    (hpos : (s.placedObjects.map (fun o => o.position)).Nodup) :
    (denseGrid s c2i n2i false s.agentPos.row s.agentPos.column
        ++ [s.agentPos.row + 1, s.agentPos.column + 1]).getD 4 0 = s.agentDirection
    ∧ (denseGrid s c2i n2i false s.agentPos.row s.agentPos.column
        ++ [s.agentPos.row + 1, s.agentPos.column + 1]).getD 5 0 = s.agentPos.row + 1
    ∧ (denseGrid s c2i n2i false s.agentPos.row s.agentPos.column
        ++ [s.agentPos.row + 1, s.agentPos.column + 1]).getD 6 0 = s.agentPos.column + 1 := by
  rw [denseGrid_cell s c2i n2i hpos s.agentPos.row s.agentPos.column]
  cases hf : s.placedObjects.find?
      (fun o => decide (s.agentPos.row = o.position.row
        ∧ s.agentPos.column = o.position.column)) with
  | some o =>
    have htriv : s.agentPos.row = s.agentPos.row ∧ s.agentPos.column = s.agentPos.column :=
      ⟨rfl, rfl⟩
    simp only [if_pos htriv]
    exact ⟨rfl, rfl, rfl⟩
  | none =>
    have htriv : s.agentPos.row = s.agentPos.row ∧ s.agentPos.column = s.agentPos.column :=
      ⟨rfl, rfl⟩
    simp only [if_pos htriv]
    exact ⟨rfl, rfl, rfl⟩

/-- C2: parse_sparse_situation round-trips under both world encoding
schemes (reascan boxes disabled, as in the gSCAN pipeline): from the
"sequence" output the spec-modelled decoder recovers the agent position,
the agent direction and exactly the (size, color, shape, position) tuples
of the placed objects, and from the "all" output it recovers the agent
position, the direction, and the object tuples as a multiset.  Hypotheses:
the placed objects occupy pairwise distinct positions inside the grid, the
agent is inside the grid, shapes encode to non-zero indices, and the
color/noun index maps are inverted by i2c/i2n on the colors and shapes in
use. -/
theorem situation_codec_round_trip (s : Situation) (c2i n2i : String → Nat)
    (i2c i2n : Nat → String)
    (hpos : (s.placedObjects.map (fun o => o.position)).Nodup)
    (hrow : ∀ o ∈ s.placedObjects, o.position.row < s.gridSize)
    (hcol : ∀ o ∈ s.placedObjects, o.position.column < s.gridSize)
    (harow : s.agentPos.row < s.gridSize) (hacol : s.agentPos.column < s.gridSize)
    (hshape : ∀ o ∈ s.placedObjects, 1 ≤ n2i o.object.shape)
    (hc : ∀ o ∈ s.placedObjects, i2c (c2i o.object.color) = o.object.color)
    (hn : ∀ o ∈ s.placedObjects, i2n (n2i o.object.shape) = o.object.shape) :
    decodeSequence (parse_sparse_situation s s.gridSize c2i n2i .sequence false) i2c i2n
      = (some s.agentPos, s.agentDirection, s.placedObjects.map objectTuple)
    ∧ (decodeAll (parse_sparse_situation s s.gridSize c2i n2i .all false) i2c i2n).1
      = some s.agentPos
    ∧ (decodeAll (parse_sparse_situation s s.gridSize c2i n2i .all false) i2c i2n).2.1
      = s.agentDirection
    ∧ ((decodeAll (parse_sparse_situation s s.gridSize c2i n2i .all false) i2c i2n).2.2
        : Multiset (Nat × String × String × Position))
      = (s.placedObjects.map objectTuple : Multiset (Nat × String × String × Position)) := by
  have hfind : ((((List.range s.gridSize) ×ˢ (List.range s.gridSize)).map
      (fun rc => denseGrid s c2i n2i false rc.1 rc.2 ++ [rc.1 + 1, rc.2 + 1])).find?
      (fun v => v.getD 3 0 == 1))
      = some (denseGrid s c2i n2i false s.agentPos.row s.agentPos.column
          ++ [s.agentPos.row + 1, s.agentPos.column + 1]) := by
    have := find?_unique_map
      (fun rc : Nat × Nat => denseGrid s c2i n2i false rc.1 rc.2 ++ [rc.1 + 1, rc.2 + 1])
      (fun v => v.getD 3 0 == 1) (s.agentPos.row, s.agentPos.column)
      ((List.range s.gridSize) ×ˢ (List.range s.gridSize))
      (List.pair_mem_product.mpr ⟨List.mem_range.mpr harow, List.mem_range.mpr hacol⟩)
      ?_
    · exact this
    · rintro ⟨r, c⟩ hrc
      rw [beq_iff_eq, denseGrid_flag s c2i n2i hpos r c]
      by_cases h : r = s.agentPos.row ∧ c = s.agentPos.column
      · rw [if_pos h]
        simp [Prod.ext_iff, h]
      · rw [if_neg h]
        constructor
        · intro hcon
          cases hcon
        · intro hcon
          rw [Prod.mk.injEq] at hcon
          exact absurd hcon h
  refine ⟨?_, ?_, ?_, ?_⟩
  · -- sequence scheme
    show decodeSequence (sequenceAgentRow s false
      :: s.placedObjects.map (sequenceObjectRow c2i n2i false)) i2c i2n = _
    simp only [decodeSequence]
    refine congrArg₂ Prod.mk rfl (congrArg₂ Prod.mk rfl ?_)
    rw [List.map_map]
    apply List.map_congr_left
    intro o ho
    show (((sequenceObjectRow c2i n2i false o).getD 0 0,
      i2c ((sequenceObjectRow c2i n2i false o).getD 1 0),
      i2n ((sequenceObjectRow c2i n2i false o).getD 2 0),
      (⟨(sequenceObjectRow c2i n2i false o).getD 5 0,
        (sequenceObjectRow c2i n2i false o).getD 6 0⟩ : Position))
      : Nat × String × String × Position) = objectTuple o
    show ((o.object.size, i2c (c2i o.object.color), i2n (n2i o.object.shape),
      (⟨o.position.row, o.position.column⟩ : Position))
      : Nat × String × String × Position) = objectTuple o
    rw [hc o ho, hn o ho]
    rfl
  · -- all scheme: agent position
    rw [parse_all_eq]
    simp only [decodeAll]
    rw [hfind]
    simp only [Option.map_some']
    have hag := denseGrid_agent_cell s c2i n2i hpos
    rw [hag.2.1, hag.2.2]
    simp
  · -- all scheme: agent direction
    rw [parse_all_eq]
    simp only [decodeAll]
    rw [hfind]
    simp only [Option.map_some', Option.getD_some]
    exact (denseGrid_agent_cell s c2i n2i hpos).1
  · -- all scheme: object multiset
    rw [parse_all_eq]
    simp only [decodeAll]
    rw [List.filterMap_map]
    have hpt : ∀ rc ∈ (List.range s.gridSize) ×ˢ (List.range s.gridSize),
        ((fun v : List Nat =>
          if v.getD 2 0 ≠ 0 then
            some (v.getD 0 0, i2c (v.getD 1 0), i2n (v.getD 2 0),
              (⟨v.getD 5 0 - 1, v.getD 6 0 - 1⟩ : Position))
          else none) ∘
          (fun rc : Nat × Nat =>
            denseGrid s c2i n2i false rc.1 rc.2 ++ [rc.1 + 1, rc.2 + 1])) rc
        = (s.placedObjects.find? (fun o => decide (rc.1 = o.position.row
            ∧ rc.2 = o.position.column))).map objectTuple := by
      rintro ⟨r, c⟩ hrc
      simp only [Function.comp_apply]
      rw [denseGrid_cell s c2i n2i hpos r c]
      cases hf : s.placedObjects.find?
          (fun o => decide (r = o.position.row ∧ c = o.position.column)) with
      | some o =>
        have ho : o ∈ s.placedObjects := List.mem_of_find?_eq_some hf
        have hpred := List.find?_some hf
        rw [decide_eq_true_iff] at hpred
        have hsh : 1 ≤ n2i o.object.shape := hshape o ho
        have hposeq : (⟨r, c⟩ : Position) = o.position :=
          Position.eq_of_rowcol hpred.1 hpred.2
        by_cases h : r = s.agentPos.row ∧ c = s.agentPos.column
        · simp only [if_pos h]
          split_ifs with hval
          · show some (o.object.size, i2c (c2i o.object.color), i2n (n2i o.object.shape),
              (⟨r + 1 - 1, c + 1 - 1⟩ : Position)) = _
            rw [hc o ho, hn o ho]
            show some (o.object.size, o.object.color, o.object.shape,
              (⟨r, c⟩ : Position)) = _
            rw [hposeq]
            rfl
          · exact absurd (show n2i o.object.shape ≠ 0 by omega) hval
        · simp only [if_neg h]
          split_ifs with hval
          · show some (o.object.size, i2c (c2i o.object.color), i2n (n2i o.object.shape),
              (⟨r + 1 - 1, c + 1 - 1⟩ : Position)) = _
            rw [hc o ho, hn o ho]
            show some (o.object.size, o.object.color, o.object.shape,
              (⟨r, c⟩ : Position)) = _
            rw [hposeq]
            rfl
          · exact absurd (show n2i o.object.shape ≠ 0 by omega) hval
      | none =>
        by_cases h : r = s.agentPos.row ∧ c = s.agentPos.column
        · simp only [if_pos h]
          split_ifs with hval
          · exact absurd rfl hval
          · rfl
        · simp only [if_neg h]
          split_ifs with hval
          · exact absurd rfl hval
          · rfl
    rw [List.filterMap_congr hpt]
    apply Multiset.coe_eq_coe.mpr
    apply filterMap_find?_perm objectTuple s.placedObjects
      ((List.range s.gridSize) ×ˢ (List.range s.gridSize))
      ((List.nodup_range _).product (List.nodup_range _)) hpos
    intro o ho
    exact List.pair_mem_product.mpr
      ⟨List.mem_range.mpr (hrow o ho), List.mem_range.mpr (hcol o ho)⟩

/-- Witness for the codec round trip at a concrete 3 by 3 situation with two
objects and the gSCAN vocabulary index maps. -/
theorem situation_codec_round_trip_witness :
    (codecWitnessSituation.placedObjects.map (fun o => o.position)).Nodup
    ∧ (decodeSequence (parse_sparse_situation codecWitnessSituation
          codecWitnessSituation.gridSize gscanColor2idx gscanNoun2idx .sequence false)
          gscanIdx2color gscanIdx2noun
        = (some codecWitnessSituation.agentPos, codecWitnessSituation.agentDirection,
            codecWitnessSituation.placedObjects.map objectTuple)
      ∧ (decodeAll (parse_sparse_situation codecWitnessSituation
          codecWitnessSituation.gridSize gscanColor2idx gscanNoun2idx .all false)
          gscanIdx2color gscanIdx2noun).1 = some codecWitnessSituation.agentPos
      ∧ (decodeAll (parse_sparse_situation codecWitnessSituation
          codecWitnessSituation.gridSize gscanColor2idx gscanNoun2idx .all false)
          gscanIdx2color gscanIdx2noun).2.1 = codecWitnessSituation.agentDirection
      ∧ ((decodeAll (parse_sparse_situation codecWitnessSituation
          codecWitnessSituation.gridSize gscanColor2idx gscanNoun2idx .all false)
          gscanIdx2color gscanIdx2noun).2.2
          : Multiset (Nat × String × String × Position))
        = (codecWitnessSituation.placedObjects.map objectTuple
          : Multiset (Nat × String × String × Position))) :=
  ⟨by decide,
   situation_codec_round_trip codecWitnessSituation gscanColor2idx gscanNoun2idx
     gscanIdx2color gscanIdx2noun (by decide) (by decide) (by decide) (by decide)
     (by decide) (by decide) (by decide) (by decide)⟩

/-! ### Structural lemmas for the sort-loop and round-robin machines -/

/-- Cursor of the bumped state: the current mode's cursor is incremented,
the others are untouched. -/
theorem SortLoopState.bump_cursor (st : SortLoopState) (m : SortMode) :
    st.bump.cursor m = if m = st.mode then st.cursor m + 1 else st.cursor m := by
  cases hmode : st.mode <;> cases m <;>
    simp [SortLoopState.bump, SortLoopState.cursor, hmode]

/-- Bumping does not change the mode. -/
theorem SortLoopState.bump_mode (st : SortLoopState) : st.bump.mode = st.mode := by
  cases hmode : st.mode <;> simp [SortLoopState.bump, hmode]

/-- Bumping does not change the remaining set. -/
theorem SortLoopState.bump_rem (st : SortLoopState) : st.bump.rem = st.rem := by
  cases hmode : st.mode <;> simp [SortLoopState.bump, hmode]

/-- Cursors ignore the mode field. -/
theorem SortLoopState.cursor_withMode (st : SortLoopState) (x m : SortMode) :
    ({ st with mode := x } : SortLoopState).cursor m = st.cursor m := by
  cases m <;> rfl

/-- Bucket of setBucket: the named mode gets the new bucket, the others are
untouched. -/
theorem RoundRobinState.bucket_setBucket (sp : RoundRobinState) (m : SortMode)
    (b : List Nat) (m' : SortMode) :
    (sp.setBucket m b).bucket m' = if m' = m then b else sp.bucket m' := by
  cases m <;> cases m' <;>
    simp [RoundRobinState.setBucket, RoundRobinState.bucket]

/-- setBucket does not change the mode. -/
theorem RoundRobinState.setBucket_mode (sp : RoundRobinState) (m : SortMode)
    (b : List Nat) : (sp.setBucket m b).mode = sp.mode := by
  cases m <;> rfl

/-- setBucket does not change the remaining set. -/
theorem RoundRobinState.setBucket_rem (sp : RoundRobinState) (m : SortMode)
    (b : List Nat) : (sp.setBucket m b).rem = sp.rem := by
  cases m <;> rfl

/-- A Boolean filter and its complement partition a list's length. -/
theorem length_filter_add_length_filter_not (f : Nat → Bool) :
    ∀ (l : List Nat), (l.filter f).length + (l.filter (fun i => !(f i))).length
      = l.length := by
  intro l
  induction l with
  | nil => rfl
  | cons x xs ih =>
    by_cases h : f x = true
    · simp [List.filter_cons, h]
      omega
    · simp only [Bool.not_eq_true] at h
      simp [List.filter_cons, h]
      omega

/-- The stably sorted index arrays all have length n. -/
theorem stableSortByMatchDesc_length (n : Nat) (f : Nat → Bool) :
    (stableSortByMatchDesc n f).length = n := by
  unfold stableSortByMatchDesc
  rw [List.length_append, length_filter_add_length_filter_not, List.length_range]

/-- Filtering the stably sorted array by its own key recovers the matching
prefix, which is the corpus-order bucket. -/
theorem filter_stableSortByMatchDesc (n : Nat) (f : Nat → Bool) :
    (stableSortByMatchDesc n f).filter f = (List.range n).filter f := by
  unfold stableSortByMatchDesc
  rw [List.filter_append]
  have h1 : ((List.range n).filter f).filter f = (List.range n).filter f := by
    rw [List.filter_filter]
    apply List.filter_congr
    intro x _
    exact Bool.and_self (f x)
  have h2 : ((List.range n).filter (fun i => !(f i))).filter f = [] := by
    rw [List.filter_filter]
    have : ∀ l : List Nat, (l.filter (fun a => f a && !(f a))) = [] := by
      intro l
      induction l with
      | nil => rfl
      | cons x xs ih =>
        rw [List.filter_cons]
        simp [ih]
    exact this _
  rw [h1, h2, List.append_nil]

/-- The while condition of the sort loop holds exactly when entries remain. -/
theorem sortLoop_cond_iff (A : SortMode → List Nat) (st : SortLoopState) :
    (st.cColor < (A .color).length ∨ st.cObject < (A .object).length
      ∨ st.cSize < (A .size).length) ↔ 0 < sortLoopRemaining A st := by
  unfold sortLoopRemaining
  omega

/-- The remaining-entry count is invariant under a mode change. -/
theorem sortLoopRemaining_withMode (A : SortMode → List Nat) (st : SortLoopState)
    (x : SortMode) :
    sortLoopRemaining A ({ st with mode := x }) = sortLoopRemaining A st := rfl

/-- Hopping from an exhausted mode strictly decreases the measure. -/
theorem sortLoopMeasure_hop (A : SortMode → List Nat) (st : SortLoopState)
    (hcond : st.cColor < (A .color).length ∨ st.cObject < (A .object).length
      ∨ st.cSize < (A .size).length)
    (hexh : (A st.mode).length ≤ st.cursor st.mode) :
    sortLoopMeasure A ({ st with mode := st.mode.next }) < sortLoopMeasure A st := by
  cases hmode : st.mode <;>
    rw [hmode] at hexh <;>
    simp only [sortLoopMeasure, sortLoopRemaining, sortLoopHop, hmode,
      SortLoopState.cursor, SortMode.next] at hexh ⊢ <;>
    split_ifs <;> omega

/-- Skipping a candidate (cursor bump) strictly decreases the measure. -/
theorem sortLoopMeasure_bump (A : SortMode → List Nat) (st : SortLoopState)
    (hc : st.cursor st.mode < (A st.mode).length) :
    sortLoopMeasure A st.bump < sortLoopMeasure A st := by
  cases hmode : st.mode <;>
    rw [hmode] at hc <;>
    simp only [sortLoopMeasure, sortLoopRemaining, sortLoopHop,
      SortLoopState.bump, hmode, SortLoopState.cursor, SortMode.next] at hc ⊢ <;>
    split_ifs <;> omega

/-- Emitting a candidate strictly decreases the measure. -/
theorem sortLoopMeasure_emit (A : SortMode → List Nat) (st : SortLoopState)
    (i : Nat) (hc : st.cursor st.mode < (A st.mode).length) :
    sortLoopMeasure A ({ st.bump with rem := st.rem.erase i, mode := st.mode.next })
      < sortLoopMeasure A st := by
  cases hmode : st.mode <;>
    rw [hmode] at hc <;>
    simp only [sortLoopMeasure, sortLoopRemaining, sortLoopHop,
      SortLoopState.bump, hmode, SortLoopState.cursor, SortMode.next] at hc ⊢ <;>
    split_ifs <;> omega

/-- Hopping from an exhausted bucket strictly decreases the specification
measure. -/
theorem rrMeasure_hop (sp : RoundRobinState)
    (hnonempty : ¬(sp.bColor = [] ∧ sp.bObject = [] ∧ sp.bSize = []))
    (hexh : sp.bucket sp.mode = []) :
    rrMeasure ({ sp with mode := sp.mode.next }) < rrMeasure sp := by
  cases hmode : sp.mode <;>
    rw [hmode] at hexh <;>
    simp only [rrMeasure, rrRemaining, rrHop, hmode, RoundRobinState.bucket,
      SortMode.next] at hexh hnonempty ⊢ <;>
    split_ifs <;>
    simp_all

/-- Dropping the head of the current bucket strictly decreases the
specification measure. -/
theorem rrMeasure_drop (sp : RoundRobinState) (i : Nat) (rest : List Nat)
    (hb : sp.bucket sp.mode = i :: rest) :
    rrMeasure (sp.setBucket sp.mode rest) < rrMeasure sp := by
  cases hmode : sp.mode <;>
    rw [hmode] at hb <;>
    simp only [rrMeasure, rrRemaining, rrHop, hmode, RoundRobinState.bucket,
      RoundRobinState.setBucket, SortMode.next, hb] at * <;>
    split_ifs <;>
    simp_all <;>
    omega

/-- Emitting the head of the current bucket strictly decreases the
specification measure. -/
theorem rrMeasure_emit (sp : RoundRobinState) (i : Nat) (rest : List Nat)
    (hb : sp.bucket sp.mode = i :: rest) :
    rrMeasure ({ sp.setBucket sp.mode rest with
      rem := sp.rem.erase i, mode := sp.mode.next }) < rrMeasure sp := by
  cases hmode : sp.mode <;>
    rw [hmode] at hb <;>
    simp only [rrMeasure, rrRemaining, rrHop, hmode, RoundRobinState.bucket,
      RoundRobinState.setBucket, SortMode.next, hb] at * <;>
    split_ifs <;>
    simp_all <;>
    omega

/-- The abstract buckets ignore the mode field. -/
theorem sortLoopBucket_withMode (A : SortMode → List Nat) (M : SortMode → Nat → Bool)
    (st : SortLoopState) (x m : SortMode) :
    sortLoopBucket A M ({ st with mode := x }) m = sortLoopBucket A M st m := by
  unfold sortLoopBucket
  rw [SortLoopState.cursor_withMode]

/-- The abstract buckets after a cursor bump: the current mode's bucket is
recomputed past the bumped cursor, the others are untouched. -/
theorem sortLoopBucket_bump (A : SortMode → List Nat) (M : SortMode → Nat → Bool)
    (st : SortLoopState) (m : SortMode) :
    sortLoopBucket A M st.bump m =
      if m = st.mode then ((A m).drop (st.cursor m + 1)).filter (M m)
      else sortLoopBucket A M st m := by
  unfold sortLoopBucket
  rw [SortLoopState.bump_cursor]
  by_cases h : m = st.mode <;> simp [h]

/-- Cursors ignore simultaneous rem and mode updates. -/
theorem SortLoopState.cursor_withRemMode (st : SortLoopState) (r : List Nat)
    (x m : SortMode) :
    ({ st with rem := r, mode := x } : SortLoopState).cursor m = st.cursor m := by
  cases m <;> rfl

/-- The specification machine started on three empty buckets emits nothing. -/
theorem roundRobinRun_empty (sp : RoundRobinState) (hC : sp.bColor = [])
    (hO : sp.bObject = []) (hS : sp.bSize = []) (g : Nat) :
    roundRobinRun g sp = [] := by
  cases g with
  | zero => rfl
  | succ g =>
    rw [roundRobinRun]
    rw [if_pos ⟨hC, hO, hS⟩]

/-- A filtered suffix stays empty when the cursor advances. -/
theorem filter_drop_tail (l : List Nat) (p : Nat → Bool) (c : Nat)
    (h : (l.drop c).filter p = []) : (l.drop (c + 1)).filter p = [] := by
  rcases Nat.lt_or_ge c l.length with hlt | hge
  · rw [List.drop_eq_getElem_cons hlt, List.filter_cons] at h
    split_ifs at h with hp
    exact h
  · rw [List.drop_eq_nil_of_le (by omega)]
    rfl

/-- When no matching entries remain anywhere, the sort loop emits nothing:
every further iteration is a cursor bump over a non-matching or already
taken entry, or a mode hop. -/
theorem sortLoopRun_no_match (A : SortMode → List Nat) (M : SortMode → Nat → Bool) :
    ∀ (f : Nat) (st : SortLoopState),
      (∀ m, sortLoopBucket A M st m = []) →
      sortLoopRun A M f st = [] := by
  intro f
  induction f with
  | zero => intro st _; rfl
  | succ f ih =>
    intro st hempty
    rw [sortLoopRun]
    by_cases hcond : st.cColor < (A .color).length ∨ st.cObject < (A .object).length
        ∨ st.cSize < (A .size).length
    · rw [if_pos hcond]
      by_cases hexh : (A st.mode).length ≤ st.cursor st.mode
      · rw [if_pos hexh]
        apply ih
        intro m
        rw [sortLoopBucket_withMode]
        exact hempty m
      · rw [if_neg hexh]
        push_neg at hexh
        have hMi : M st.mode ((A st.mode).getD (st.cursor st.mode) 0) = false := by
          by_contra hcon
          rw [Bool.not_eq_false] at hcon
          have h0 := hempty st.mode
          unfold sortLoopBucket at h0
          rw [List.drop_eq_getElem_cons hexh, List.filter_cons] at h0
          rw [List.getD_eq_getElem _ _ hexh] at hcon
          rw [if_pos hcon] at h0
          exact absurd h0 (List.cons_ne_nil _ _)
        rw [if_pos (by rw [hMi]; simp)]
        apply ih
        intro m
        rw [sortLoopBucket_bump]
        by_cases hm : m = st.mode
        · rw [if_pos hm, hm]
          apply filter_drop_tail
          exact hempty st.mode
        · rw [if_neg hm]
          exact hempty m
    · rw [if_neg hcond]

/-- Buckets ignore the mode field of the specification state. -/
theorem RoundRobinState.bucket_withMode (sp : RoundRobinState) (x m : SortMode) :
    ({ sp with mode := x } : RoundRobinState).bucket m = sp.bucket m := by
  cases m <;> rfl

/-- Buckets ignore simultaneous rem and mode updates. -/
theorem RoundRobinState.bucket_withRemMode (sp : RoundRobinState) (r : List Nat)
    (x m : SortMode) :
    ({ sp with rem := r, mode := x } : RoundRobinState).bucket m = sp.bucket m := by
  cases m <;> rfl

/-- Abstract buckets ignore simultaneous rem and mode updates. -/
theorem sortLoopBucket_withRemMode (A : SortMode → List Nat)
    (M : SortMode → Nat → Bool) (st : SortLoopState) (r : List Nat) (x m : SortMode) :
    sortLoopBucket A M ({ st with rem := r, mode := x }) m
      = sortLoopBucket A M st m := by
  unfold sortLoopBucket
  rw [SortLoopState.cursor_withRemMode]

/-- Simulation: with sufficient fuel on both sides, the source sort loop and
the specification round-robin machine produce the same index sequence,
whenever the specification buckets are the source state's abstract buckets,
the modes agree and the remaining sets agree. -/
theorem sortLoop_sim (A : SortMode → List Nat) (M : SortMode → Nat → Bool) :
    ∀ (f : Nat) (st : SortLoopState) (g : Nat) (sp : RoundRobinState),
      sortLoopMeasure A st ≤ f →
      rrMeasure sp ≤ g →
      (∀ m, sp.bucket m = sortLoopBucket A M st m) →
      sp.mode = st.mode →
      sp.rem = st.rem →
      sortLoopRun A M f st = roundRobinRun g sp := by
  intro f
  induction f with
  | zero =>
    intro st g sp hf hg hb hm hr
    have hcur : (A .color).length ≤ st.cColor ∧ (A .object).length ≤ st.cObject
        ∧ (A .size).length ≤ st.cSize := by
      unfold sortLoopMeasure sortLoopRemaining at hf
      omega
    have hC : sp.bColor = [] := by
      have h2 : sortLoopBucket A M st SortMode.color = [] := by
        unfold sortLoopBucket
        simp only [SortLoopState.cursor]
        rw [List.drop_eq_nil_of_le hcur.1]
        rfl
      exact (hb SortMode.color).trans h2
    have hO : sp.bObject = [] := by
      have h2 : sortLoopBucket A M st SortMode.object = [] := by
        unfold sortLoopBucket
        simp only [SortLoopState.cursor]
        rw [List.drop_eq_nil_of_le hcur.2.1]
        rfl
      exact (hb SortMode.object).trans h2
    have hS : sp.bSize = [] := by
      have h2 : sortLoopBucket A M st SortMode.size = [] := by
        unfold sortLoopBucket
        simp only [SortLoopState.cursor]
        rw [List.drop_eq_nil_of_le hcur.2.2]
        rfl
      exact (hb SortMode.size).trans h2
    rw [roundRobinRun_empty sp hC hO hS g]
    rfl
  | succ f ih =>
    intro st g sp hf hg hb hm hr
    rw [sortLoopRun]
    by_cases hcond : st.cColor < (A .color).length ∨ st.cObject < (A .object).length
        ∨ st.cSize < (A .size).length
    · rw [if_pos hcond]
      by_cases hexh : (A st.mode).length ≤ st.cursor st.mode
      · rw [if_pos hexh]
        have hbmode : sp.bucket sp.mode = [] := by
          rw [hm, hb st.mode]
          unfold sortLoopBucket
          rw [List.drop_eq_nil_of_le hexh]
          rfl
        by_cases hall : sp.bColor = [] ∧ sp.bObject = [] ∧ sp.bSize = []
        · rw [roundRobinRun_empty sp hall.1 hall.2.1 hall.2.2 g]
          apply sortLoopRun_no_match
          intro m
          rw [sortLoopBucket_withMode, ← hb m]
          cases m
          · exact hall.1
          · exact hall.2.1
          · exact hall.2.2
        · have hg1 : 1 ≤ g := by
            have hlt := rrMeasure_hop sp hall hbmode
            omega
          obtain ⟨g', rfl⟩ : ∃ g', g = g' + 1 := ⟨g - 1, by omega⟩
          rw [roundRobinRun, if_neg hall]
          simp only [hbmode]
          exact ih ({ st with mode := st.mode.next }) g'
            ({ sp with mode := sp.mode.next })
            (by have := sortLoopMeasure_hop A st hcond hexh; omega)
            (by have := rrMeasure_hop sp hall hbmode; omega)
            (fun m => by
              rw [RoundRobinState.bucket_withMode, sortLoopBucket_withMode]
              exact hb m)
            (congrArg SortMode.next hm)
            hr
      · rw [if_neg hexh]
        push_neg at hexh
        have hdrop : (A st.mode).drop (st.cursor st.mode)
            = (A st.mode).getD (st.cursor st.mode) 0
              :: (A st.mode).drop (st.cursor st.mode + 1) := by
          rw [List.getD_eq_getElem _ _ hexh]
          exact List.drop_eq_getElem_cons hexh
        by_cases hskip :
            (!(st.rem.contains ((A st.mode).getD (st.cursor st.mode) 0))
              || !(M st.mode ((A st.mode).getD (st.cursor st.mode) 0))) = true
        · rw [if_pos hskip]
          by_cases hMi : M st.mode ((A st.mode).getD (st.cursor st.mode) 0) = true
          · -- skip because the entry was already taken; the spec drops its head
            have hirem : st.rem.contains ((A st.mode).getD (st.cursor st.mode) 0)
                = false := by
              rcases Bool.or_eq_true_iff.mp hskip with h | h
              · simpa using h
              · rw [hMi] at h
                cases h
            have hbmode : sp.bucket sp.mode
                = (A st.mode).getD (st.cursor st.mode) 0
                  :: ((A st.mode).drop (st.cursor st.mode + 1)).filter (M st.mode) := by
              rw [hm, hb st.mode]
              unfold sortLoopBucket
              rw [hdrop, List.filter_cons, if_pos hMi]
            have hall : ¬(sp.bColor = [] ∧ sp.bObject = [] ∧ sp.bSize = []) := by
              intro hall
              have h0 : sp.bucket sp.mode = [] := by
                cases hmode2 : sp.mode
                · exact hall.1
                · exact hall.2.1
                · exact hall.2.2
              rw [h0] at hbmode
              cases hbmode
            have hg1 : 1 ≤ g := by
              have hlt := rrMeasure_drop sp _ _ hbmode
              omega
            obtain ⟨g', rfl⟩ : ∃ g', g = g' + 1 := ⟨g - 1, by omega⟩
            rw [roundRobinRun, if_neg hall]
            simp only [hbmode, hr, hirem, Bool.false_eq_true, if_false]
            have harg := ih st.bump g'
              (sp.setBucket sp.mode (((A st.mode).drop (st.cursor st.mode + 1)).filter (M st.mode)))
              (by have := sortLoopMeasure_bump A st hexh; omega)
              (by have := rrMeasure_drop sp _ _ hbmode; omega)
              (fun m => by
                rw [RoundRobinState.bucket_setBucket, sortLoopBucket_bump]
                by_cases hmm : m = sp.mode
                · rw [if_pos hmm, if_pos (hmm.trans hm), hmm, hm]
                · rw [if_neg hmm, if_neg (fun hcon => hmm (hcon.trans hm.symm))]
                  exact hb m)
              (by rw [RoundRobinState.setBucket_mode, SortLoopState.bump_mode, hm])
              (by rw [RoundRobinState.setBucket_rem, SortLoopState.bump_rem, hr])
            exact harg
          · -- skip because the entry does not match; the spec does not move
            apply ih st.bump g sp
              (by have := sortLoopMeasure_bump A st hexh; omega)
              hg
              (fun m => by
                rw [sortLoopBucket_bump]
                by_cases hmm : m = st.mode
                · rw [if_pos hmm, hmm, hb st.mode]
                  unfold sortLoopBucket
                  rw [hdrop, List.filter_cons, if_neg hMi]
                · rw [if_neg hmm]
                  exact hb m)
              (hm.trans (SortLoopState.bump_mode st).symm)
              (hr.trans (SortLoopState.bump_rem st).symm)
        · rw [if_neg hskip]
          have h2 : (!(st.rem.contains ((A st.mode).getD (st.cursor st.mode) 0))
              || !(M st.mode ((A st.mode).getD (st.cursor st.mode) 0))) = false := by
            rcases Bool.eq_false_or_eq_true
              (!(st.rem.contains ((A st.mode).getD (st.cursor st.mode) 0))
                || !(M st.mode ((A st.mode).getD (st.cursor st.mode) 0))) with h | h
            · exact absurd h hskip
            · exact h
          have hcontab := Bool.or_eq_false_iff.mp h2
          have hcont : st.rem.contains ((A st.mode).getD (st.cursor st.mode) 0)
              = true := by
            have h3 := hcontab.1
            simpa using h3
          have hM : M st.mode ((A st.mode).getD (st.cursor st.mode) 0) = true := by
            have h3 := hcontab.2
            simpa using h3
          have hbmode : sp.bucket sp.mode
              = (A st.mode).getD (st.cursor st.mode) 0
                :: ((A st.mode).drop (st.cursor st.mode + 1)).filter (M st.mode) := by
            rw [hm, hb st.mode]
            unfold sortLoopBucket
            rw [hdrop, List.filter_cons, if_pos hM]
          have hall : ¬(sp.bColor = [] ∧ sp.bObject = [] ∧ sp.bSize = []) := by
            intro hall
            have h0 : sp.bucket sp.mode = [] := by
              cases hmode2 : sp.mode
              · exact hall.1
              · exact hall.2.1
              · exact hall.2.2
            rw [h0] at hbmode
            cases hbmode
          have hg1 : 1 ≤ g := by
            have hlt := rrMeasure_emit sp _ _ hbmode
            omega
          obtain ⟨g', rfl⟩ : ∃ g', g = g' + 1 := ⟨g - 1, by omega⟩
          rw [roundRobinRun, if_neg hall]
          simp only [hbmode, hr, hcont, if_true]
          refine congrArg₂ List.cons rfl ?_
          exact ih
            ({ st.bump with
              rem := st.rem.erase ((A st.mode).getD (st.cursor st.mode) 0),
              mode := st.mode.next }) g'
            ({ sp.setBucket sp.mode
                (((A st.mode).drop (st.cursor st.mode + 1)).filter (M st.mode)) with
              rem := st.rem.erase ((A st.mode).getD (st.cursor st.mode) 0),
              mode := sp.mode.next })
            (by have := sortLoopMeasure_emit A st
                  ((A st.mode).getD (st.cursor st.mode) 0) hexh
                omega)
            (by have := rrMeasure_emit sp _ _ hbmode
                rw [hr] at this
                omega)
            (fun m => by
              rw [RoundRobinState.bucket_withRemMode, RoundRobinState.bucket_setBucket,
                sortLoopBucket_withRemMode, sortLoopBucket_bump]
              by_cases hmm : m = sp.mode
              · rw [if_pos hmm, if_pos (hmm.trans hm), hmm, hm]
              · rw [if_neg hmm, if_neg (fun hcon => hmm (hcon.trans hm.symm))]
                exact hb m)
            (congrArg SortMode.next hm)
            rfl
    · rw [if_neg hcond]
      have hcur : (A .color).length ≤ st.cColor ∧ (A .object).length ≤ st.cObject
          ∧ (A .size).length ≤ st.cSize := by
        push_neg at hcond
        exact ⟨hcond.1, hcond.2.1, hcond.2.2⟩
      have hC : sp.bColor = [] := by
        have h2 : sortLoopBucket A M st SortMode.color = [] := by
          unfold sortLoopBucket
          simp only [SortLoopState.cursor]
          rw [List.drop_eq_nil_of_le hcur.1]
          rfl
        exact (hb SortMode.color).trans h2
      have hO : sp.bObject = [] := by
        have h2 : sortLoopBucket A M st SortMode.object = [] := by
          unfold sortLoopBucket
          simp only [SortLoopState.cursor]
          rw [List.drop_eq_nil_of_le hcur.2.1]
          rfl
        exact (hb SortMode.object).trans h2
      have hS : sp.bSize = [] := by
        have h2 : sortLoopBucket A M st SortMode.size = [] := by
          unfold sortLoopBucket
          simp only [SortLoopState.cursor]
          rw [List.drop_eq_nil_of_le hcur.2.2]
          rfl
        exact (hb SortMode.size).trans h2
      rw [roundRobinRun_empty sp hC hO hS g]

/-- One hop step of the specification machine. -/
theorem roundRobinRun_succ_hop (g : Nat) (sp : RoundRobinState)
    (hall : ¬(sp.bColor = [] ∧ sp.bObject = [] ∧ sp.bSize = []))
    (hbk : sp.bucket sp.mode = []) :
    roundRobinRun (g + 1) sp
      = roundRobinRun g ({ sp with mode := sp.mode.next }) := by
  rw [roundRobinRun, if_neg hall]
  simp only [hbk]

/-- One skip step of the specification machine: the head of the current
bucket was already emitted. -/
theorem roundRobinRun_succ_skip (g : Nat) (sp : RoundRobinState) (i0 : Nat)
    (rest : List Nat)
    (hall : ¬(sp.bColor = [] ∧ sp.bObject = [] ∧ sp.bSize = []))
    (hbk : sp.bucket sp.mode = i0 :: rest)
    (hcont : sp.rem.contains i0 = false) :
    roundRobinRun (g + 1) sp = roundRobinRun g (sp.setBucket sp.mode rest) := by
  rw [roundRobinRun, if_neg hall]
  simp only [hbk, hcont, Bool.false_eq_true, if_false]

/-- One emit step of the specification machine. -/
theorem roundRobinRun_succ_emit (g : Nat) (sp : RoundRobinState) (i0 : Nat)
    (rest : List Nat)
    (hall : ¬(sp.bColor = [] ∧ sp.bObject = [] ∧ sp.bSize = []))
    (hbk : sp.bucket sp.mode = i0 :: rest)
    (hcont : sp.rem.contains i0 = true) :
    roundRobinRun (g + 1) sp
      = i0 :: roundRobinRun g ({ sp.setBucket sp.mode rest with
          rem := sp.rem.erase i0, mode := sp.mode.next }) := by
  rw [roundRobinRun, if_neg hall]
  simp only [hbk, hcont, if_true]

/-- An element of a bucket of the current state belongs to one of the three
bucket fields. -/
theorem RoundRobinState.mem_of_mem_bucket (sp : RoundRobinState) (m : SortMode)
    (i : Nat) (h : i ∈ sp.bucket m) :
    i ∈ sp.bColor ∨ i ∈ sp.bObject ∨ i ∈ sp.bSize := by
  cases m
  · exact Or.inl h
  · exact Or.inr (Or.inl h)
  · exact Or.inr (Or.inr h)

/-- Membership in a bucket of a state after a setBucket on the head-dropped
current bucket implies membership in the corresponding original bucket. -/
theorem mem_bucket_of_setBucket_tail (sp : RoundRobinState) (i0 : Nat)
    (rest : List Nat) (hbk : sp.bucket sp.mode = i0 :: rest) (i : Nat)
    (m' : SortMode) (hm' : i ∈ (sp.setBucket sp.mode rest).bucket m') :
    i ∈ sp.bucket m' := by
  rw [RoundRobinState.bucket_setBucket] at hm'
  by_cases hmm : m' = sp.mode
  · rw [if_pos hmm] at hm'
    rw [hmm, hbk]
    exact List.mem_cons_of_mem i0 hm'
  · rw [if_neg hmm] at hm'
    exact hm'

/-- Soundness of the specification machine: with a duplicate-free remaining
set, the emitted sequence is duplicate-free, and every emitted index was in
the remaining set and in some bucket. -/
theorem roundRobinRun_sound :
    ∀ (g : Nat) (sp : RoundRobinState), rrMeasure sp ≤ g → sp.rem.Nodup →
      (roundRobinRun g sp).Nodup
      ∧ ∀ i ∈ roundRobinRun g sp,
          i ∈ sp.rem ∧ (i ∈ sp.bColor ∨ i ∈ sp.bObject ∨ i ∈ sp.bSize) := by
  intro g
  induction g with
  | zero =>
    intro sp _ _
    exact ⟨List.nodup_nil, by intro i hi; cases hi⟩
  | succ g ih =>
    intro sp hg hnodup
    by_cases hall : sp.bColor = [] ∧ sp.bObject = [] ∧ sp.bSize = []
    · rw [roundRobinRun_empty sp hall.1 hall.2.1 hall.2.2]
      exact ⟨List.nodup_nil, by intro i hi; cases hi⟩
    · cases hbk : sp.bucket sp.mode with
      | nil =>
        rw [roundRobinRun_succ_hop g sp hall hbk]
        have hstep := ih ({ sp with mode := sp.mode.next })
          (by have := rrMeasure_hop sp hall hbk; omega) hnodup
        exact ⟨hstep.1, fun i hi => (hstep.2 i hi)⟩
      | cons i0 rest =>
        by_cases hcont : sp.rem.contains i0 = true
        · rw [roundRobinRun_succ_emit g sp i0 rest hall hbk hcont]
          have hi0rem : i0 ∈ sp.rem := by simpa using hcont
          have hstep := ih ({ sp.setBucket sp.mode rest with
              rem := sp.rem.erase i0, mode := sp.mode.next })
            (by have := rrMeasure_emit sp i0 rest hbk; omega)
            (hnodup.erase i0)
          have hsub : ∀ i, i ∈ roundRobinRun g ({ sp.setBucket sp.mode rest with
              rem := sp.rem.erase i0, mode := sp.mode.next }) →
              i ∈ sp.rem ∧ (i ∈ sp.bColor ∨ i ∈ sp.bObject ∨ i ∈ sp.bSize) := by
            intro i hi
            have h2 := hstep.2 i hi
            refine ⟨List.mem_of_mem_erase h2.1, ?_⟩
            rcases h2.2 with h3 | h3 | h3
            · exact sp.mem_of_mem_bucket SortMode.color i
                (mem_bucket_of_setBucket_tail sp i0 rest hbk i SortMode.color h3)
            · exact sp.mem_of_mem_bucket SortMode.object i
                (mem_bucket_of_setBucket_tail sp i0 rest hbk i SortMode.object h3)
            · exact sp.mem_of_mem_bucket SortMode.size i
                (mem_bucket_of_setBucket_tail sp i0 rest hbk i SortMode.size h3)
          have hhead : i0 ∉ roundRobinRun g ({ sp.setBucket sp.mode rest with
              rem := sp.rem.erase i0, mode := sp.mode.next }) := by
            intro hcon
            have h2 := hstep.2 i0 hcon
            exact hnodup.not_mem_erase h2.1
          refine ⟨List.nodup_cons.mpr ⟨hhead, hstep.1⟩, ?_⟩
          intro i hi
          rcases List.mem_cons.mp hi with h | h
          · subst h
            exact ⟨hi0rem, sp.mem_of_mem_bucket sp.mode i (by rw [hbk]; exact List.mem_cons_self _ _)⟩
          · exact hsub i h
        · have hcont2 : sp.rem.contains i0 = false := by
            rcases Bool.eq_false_or_eq_true (sp.rem.contains i0) with h | h
            · exact absurd h hcont
            · exact h
          rw [roundRobinRun_succ_skip g sp i0 rest hall hbk hcont2]
          have hstep := ih (sp.setBucket sp.mode rest)
            (by have := rrMeasure_drop sp i0 rest hbk; omega)
            (by rw [RoundRobinState.setBucket_rem]; exact hnodup)
          refine ⟨hstep.1, ?_⟩
          intro i hi
          have h2 := hstep.2 i hi
          rw [RoundRobinState.setBucket_rem] at h2
          refine ⟨h2.1, ?_⟩
          rcases h2.2 with h3 | h3 | h3
          · exact sp.mem_of_mem_bucket SortMode.color i
              (mem_bucket_of_setBucket_tail sp i0 rest hbk i SortMode.color h3)
          · exact sp.mem_of_mem_bucket SortMode.object i
              (mem_bucket_of_setBucket_tail sp i0 rest hbk i SortMode.object h3)
          · exact sp.mem_of_mem_bucket SortMode.size i
              (mem_bucket_of_setBucket_tail sp i0 rest hbk i SortMode.size h3)

/-- Membership in a bucket survives a setBucket dropping the current
bucket's head, provided the element is not that head. -/
theorem mem_setBucket_tail_of_mem_bucket (sp : RoundRobinState) (i0 : Nat)
    (rest : List Nat) (hbk : sp.bucket sp.mode = i0 :: rest) (i : Nat)
    (hne : i ≠ i0) (m' : SortMode) (h : i ∈ sp.bucket m') :
    i ∈ (sp.setBucket sp.mode rest).bucket m' := by
  rw [RoundRobinState.bucket_setBucket]
  by_cases hmm : m' = sp.mode
  · rw [if_pos hmm]
    rw [hmm, hbk] at h
    rcases List.mem_cons.mp h with h | h
    · exact absurd h hne
    · exact h
  · rw [if_neg hmm]
    exact h

/-- Completeness of the specification machine: every remaining index lying
in some bucket is eventually emitted. -/
theorem roundRobinRun_complete :
    ∀ (g : Nat) (sp : RoundRobinState), rrMeasure sp ≤ g →
      ∀ i, i ∈ sp.rem → (i ∈ sp.bColor ∨ i ∈ sp.bObject ∨ i ∈ sp.bSize) →
        i ∈ roundRobinRun g sp := by
  intro g
  induction g with
  | zero =>
    intro sp hg i _ hmem
    have hlen : sp.bColor.length = 0 ∧ sp.bObject.length = 0
        ∧ sp.bSize.length = 0 := by
      unfold rrMeasure rrRemaining at hg
      omega
    rcases hmem with h | h | h
    · rw [List.length_eq_zero.mp hlen.1] at h
      cases h
    · rw [List.length_eq_zero.mp hlen.2.1] at h
      cases h
    · rw [List.length_eq_zero.mp hlen.2.2] at h
      cases h
  | succ g ih =>
    intro sp hg i hrem hmem
    by_cases hall : sp.bColor = [] ∧ sp.bObject = [] ∧ sp.bSize = []
    · rcases hmem with h | h | h
      · rw [hall.1] at h
        cases h
      · rw [hall.2.1] at h
        cases h
      · rw [hall.2.2] at h
        cases h
    · cases hbk : sp.bucket sp.mode with
      | nil =>
        rw [roundRobinRun_succ_hop g sp hall hbk]
        exact ih ({ sp with mode := sp.mode.next })
          (by have := rrMeasure_hop sp hall hbk; omega) i hrem hmem
      | cons i0 rest =>
        by_cases hcont : sp.rem.contains i0 = true
        · rw [roundRobinRun_succ_emit g sp i0 rest hall hbk hcont]
          by_cases hii : i = i0
          · rw [hii]
            exact List.mem_cons_self _ _
          · apply List.mem_cons_of_mem
            apply ih ({ sp.setBucket sp.mode rest with
                rem := sp.rem.erase i0, mode := sp.mode.next })
              (by have := rrMeasure_emit sp i0 rest hbk; omega) i
              ((List.mem_erase_of_ne hii).mpr hrem)
            rcases hmem with h | h | h
            · exact Or.inl
                (mem_setBucket_tail_of_mem_bucket sp i0 rest hbk i hii SortMode.color h)
            · exact Or.inr (Or.inl
                (mem_setBucket_tail_of_mem_bucket sp i0 rest hbk i hii SortMode.object h))
            · exact Or.inr (Or.inr
                (mem_setBucket_tail_of_mem_bucket sp i0 rest hbk i hii SortMode.size h))
        · have hcont2 : sp.rem.contains i0 = false := by
            rcases Bool.eq_false_or_eq_true (sp.rem.contains i0) with h | h
            · exact absurd h hcont
            · exact h
          rw [roundRobinRun_succ_skip g sp i0 rest hall hbk hcont2]
          have hii : i ≠ i0 := by
            intro hcon
            rw [hcon] at hrem
            have : sp.rem.contains i0 = true := by simpa using hrem
            rw [this] at hcont2
            cases hcont2
          apply ih (sp.setBucket sp.mode rest)
            (by have := rrMeasure_drop sp i0 rest hbk; omega) i
            (by rw [RoundRobinState.setBucket_rem]; exact hrem)
          rcases hmem with h | h | h
          · exact Or.inl
              (mem_setBucket_tail_of_mem_bucket sp i0 rest hbk i hii SortMode.color h)
          · exact Or.inr (Or.inl
              (mem_setBucket_tail_of_mem_bucket sp i0 rest hbk i hii SortMode.object h))
          · exact Or.inr (Or.inr
              (mem_setBucket_tail_of_mem_bucket sp i0 rest hbk i hii SortMode.size h))

/-- Filtering a range never yields more than n elements. -/
theorem length_filter_range_le (n : Nat) (p : Nat → Bool) :
    ((List.range n).filter p).length ≤ n := by
  have h := List.length_filter_le p (List.range n)
  simpa using h

/-- The sort loop's fuel covers its measure at the initial state. -/
theorem sortLoopMeasure_init_le (A : SortMode → List Nat) (rem : List Nat) :
    sortLoopMeasure A ⟨0, 0, 0, SortMode.color, rem⟩ ≤ sortLoopFuel A := by
  unfold sortLoopMeasure sortLoopRemaining sortLoopHop sortLoopFuel
  simp only [SortLoopState.cursor, SortMode.next]
  split_ifs <;> omega

/-- A bound on the specification measure from bounds on the bucket sizes. -/
theorem rrMeasure_le_of (sp : RoundRobinState) (n : Nat)
    (h1 : sp.bColor.length ≤ n) (h2 : sp.bObject.length ≤ n)
    (h3 : sp.bSize.length ≤ n) : rrMeasure sp ≤ 3 * (3 * n) + 3 := by
  unfold rrMeasure rrRemaining rrHop
  split_ifs <;> omega

/-- The specification measure of the initial state is within the fuel used
by roundRobinSpecIndices. -/
theorem rrMeasure_rrInitState_le (options : List DescOption)
    (query colors nouns : List String) :
    rrMeasure (rrInitState options query colors nouns)
      ≤ 3 * (3 * options.length) + 3 :=
  rrMeasure_le_of _ options.length
    (length_filter_range_le _ _) (length_filter_range_le _ _)
    (length_filter_range_le _ _)

/-- The initial buckets of the specification machine are the abstract
buckets of the sort loop's initial state. -/
theorem rrInitState_bucket (options : List DescOption)
    (query colors nouns : List String) (m : SortMode) :
    (rrInitState options query colors nouns).bucket m
      = sortLoopBucket
          (fun m' => stableSortByMatchDesc options.length
            (optionMatches options query colors nouns m'))
          (optionMatches options query colors nouns)
          ⟨0, 0, 0, SortMode.color, List.range options.length⟩ m := by
  cases m
  · exact (filter_stableSortByMatchDesc _ _).symm
  · exact (filter_stableSortByMatchDesc _ _).symm
  · exact (filter_stableSortByMatchDesc _ _).symm

/-- The source sort loop computes exactly the specification round-robin
index sequence. -/
theorem sortDescriptionIndices_eq_spec (options : List DescOption)
    (query colors nouns : List String) :
    sortDescriptionIndices options query colors nouns
      = roundRobinSpecIndices options query colors nouns :=
  sortLoop_sim
    (fun m => stableSortByMatchDesc options.length
      (optionMatches options query colors nouns m))
    (optionMatches options query colors nouns)
    (sortLoopFuel (fun m => stableSortByMatchDesc options.length
      (optionMatches options query colors nouns m)))
    ⟨0, 0, 0, SortMode.color, List.range options.length⟩
    (3 * (3 * options.length) + 3)
    (rrInitState options query colors nouns)
    (sortLoopMeasure_init_le _ _)
    (rrMeasure_rrInitState_le options query colors nouns)
    (rrInitState_bucket options query colors nouns)
    rfl
    rfl

/-- The emitted index sequence is duplicate-free. -/
theorem sortDescriptionIndices_nodup (options : List DescOption)
    (query colors nouns : List String) :
    (sortDescriptionIndices options query colors nouns).Nodup := by
  rw [sortDescriptionIndices_eq_spec]
  exact (roundRobinRun_sound (3 * (3 * options.length) + 3)
    (rrInitState options query colors nouns)
    (rrMeasure_rrInitState_le options query colors nouns)
    (List.nodup_range options.length)).1

/-- The emitted indices are exactly the in-range indices of options that
match at least one criterion. -/
theorem sortDescriptionIndices_mem_iff (options : List DescOption)
    (query colors nouns : List String) (i : Nat) :
    i ∈ sortDescriptionIndices options query colors nouns
      ↔ i < options.length
        ∧ (optionMatches options query colors nouns SortMode.color i = true
          ∨ optionMatches options query colors nouns SortMode.object i = true
          ∨ optionMatches options query colors nouns SortMode.size i = true) := by
  rw [sortDescriptionIndices_eq_spec]
  constructor
  · intro h
    have h2 := (roundRobinRun_sound (3 * (3 * options.length) + 3)
      (rrInitState options query colors nouns)
      (rrMeasure_rrInitState_le options query colors nouns)
      (List.nodup_range options.length)).2 i h
    refine ⟨List.mem_range.mp h2.1, ?_⟩
    rcases h2.2 with h3 | h3 | h3
    · exact Or.inl (List.mem_filter.mp h3).2
    · exact Or.inr (Or.inl (List.mem_filter.mp h3).2)
    · exact Or.inr (Or.inr (List.mem_filter.mp h3).2)
  · rintro ⟨hlt, hmatch⟩
    apply roundRobinRun_complete (3 * (3 * options.length) + 3)
      (rrInitState options query colors nouns)
      (rrMeasure_rrInitState_le options query colors nouns) i
      (List.mem_range.mpr hlt)
    rcases hmatch with h | h | h
    · exact Or.inl (List.mem_filter.mpr ⟨List.mem_range.mpr hlt, h⟩)
    · exact Or.inr (Or.inl (List.mem_filter.mpr ⟨List.mem_range.mpr hlt, h⟩))
    · exact Or.inr (Or.inr (List.mem_filter.mpr ⟨List.mem_range.mpr hlt, h⟩))

/-- C3: sort_description_words_by_query_match realises exactly the
specification's round-robin priority machine: its output equals the output
of the explicit cursor machine cycling color, object, size over the three
corpus-order match buckets (skipping already-emitted and non-matching
entries), every option index is emitted at most once, and the emitted
indices are exactly those of options matching at least one of the three
criteria — options matching none are never yielded. -/
theorem sort_description_words_round_robin (options : List DescOption)
    (query colors nouns : List String) :
    sort_description_words_by_query_match options query colors nouns
      = roundRobinSpecOrder options query colors nouns
    ∧ (sortDescriptionIndices options query colors nouns).Nodup
    ∧ ∀ i, i ∈ sortDescriptionIndices options query colors nouns
        ↔ i < options.length
          ∧ (optionMatches options query colors nouns SortMode.color i = true
            ∨ optionMatches options query colors nouns SortMode.object i = true
            ∨ optionMatches options query colors nouns SortMode.size i = true) :=
  ⟨by unfold sort_description_words_by_query_match roundRobinSpecOrder
      rw [sortDescriptionIndices_eq_spec],
   sortDescriptionIndices_nodup options query colors nouns,
   fun i => sortDescriptionIndices_mem_iff options query colors nouns i⟩

end GScanMetaSeq2Seq
